import Mathlib

/-!
Verification of the library-management agent (`server/tools.py`,
`server/gemini_agent.py`, `server/database.py`).

The development shallowly embeds the Python source: the SQLite tables become
lists of rows in a `DB` record, the cursor-threading of `create_order_safe`
becomes explicit state passing, Python exceptions become `Except`, and the
JSON extraction helper `_parse_json_response` is modelled over `List Char`
together with a model of `json.loads` (restricted to the JSON fragment the
program exchanges: null, booleans, integers, strings with the basic escapes,
arrays, objects).  Money amounts (SQLite `DECIMAL`, Python floats) are
modelled as `Int` (amounts scaled to a fixed decimal unit; the
claims about money only ever add and multiply, so the scaling is invisible).
-/

namespace LibMgr

/-! ## Database state (`server/database.py` schema)

`books(isbn PRIMARY KEY, title, author, price, stock)`,
`customers(id, name, email)`, `orders(id, customer_id, total_amount, status)`,
`order_items(order_id, book_isbn, quantity, unit_price)`.  `nextOrderId`
models the AUTOINCREMENT rowid returned as `cursor.lastrowid`. -/

structure Book where
  isbn : String
  title : String
  author : String
  price : Int
  stock : Int
deriving DecidableEq, Repr

structure Customer where
  id : Int
  name : String
  email : String
deriving DecidableEq, Repr

structure OrderRow where
  id : Nat
  customer_id : Int
  total_amount : Int
  status : String
deriving DecidableEq, Repr

structure OrderItemRow where
  order_id : Nat
  book_isbn : String
  quantity : Int
  unit_price : Int
deriving DecidableEq, Repr

structure DB where
  books : List Book
  customers : List Customer
  orders : List OrderRow
  orderItems : List OrderItemRow
  nextOrderId : Nat
deriving DecidableEq, Repr

/-! ## Order creation (`tools.py`, `create_order_safe`) -/

/-- One entry of the `items` argument: a dict from which the code reads
`item.get('isbn')` and `item.get('quantity')` (absent keys give `None`). -/

structure ItemReq where
  isbn : Option String := none
  quantity : Option Int := none
deriving DecidableEq, Repr

/-- Python truthiness test `if not isbn or not quantity:` — `None` and the
empty string are falsy for `isbn`; `None` and `0` are falsy for `quantity`. -/

def itemFalsy (it : ItemReq) : Bool :=
  it.isbn == none || it.isbn == some "" || it.quantity == none || it.quantity == some 0

/-- A row of the `order_items` accumulator built during validation. -/

structure VItem where
  isbn : String
  title : String
  quantity : Int
  unit_price : Int
deriving DecidableEq, Repr

/-- The validation loop of `create_order_safe` (lines 104-133): walks the
requested items, accumulating validated items and the running total, and
returns the first failure's error message.  `SELECT ... WHERE isbn = ?` with
`fetchone` is `List.find?`. -/

def validateLoop (books : List Book) : List ItemReq → List VItem → Int →
    Except String (List VItem × Int)
  | [], acc, total => .ok (acc.reverse, total)
  | it :: rest, acc, total =>
    if itemFalsy it then
      .error "Error: Each item must have 'isbn' and 'quantity'."
    else
      let isbn := it.isbn.getD ""
      let q := it.quantity.getD 0
      if q ≤ 0 then
        .error ("Error: Quantity for ISBN " ++ isbn ++ " must be positive.")
      else
        match books.find? (fun b => b.isbn == isbn) with
        | none => .error ("Error: Book with ISBN " ++ isbn ++ " not found.")
        | some b =>
          if b.stock < q then
            .error ("Error: Not enough stock for '" ++ b.title ++ "'. Available: "
              ++ toString b.stock ++ ", Requested: " ++ toString q)
          else
            validateLoop books rest (⟨isbn, b.title, q, b.price⟩ :: acc)
              (total + b.price * q)

/-- `UPDATE books SET stock = stock - ? WHERE isbn = ?`: every row whose isbn
matches is decremented (with the PRIMARY KEY there is at most one). -/

def decrementStock (books : List Book) (isbn : String) (q : Int) : List Book :=
  books.map (fun b => if b.isbn == isbn then { b with stock := b.stock - q } else b)

/-- The insertion loop of `create_order_safe` (lines 143-153): one
`order_items` row per validated item, and the stock update. -/

def applyOrderItems (db : DB) (oid : Nat) : List VItem → DB
  | [] => db
  | v :: rest =>
    applyOrderItems
      { db with
        orderItems := db.orderItems ++ [⟨oid, v.isbn, v.quantity, v.unit_price⟩],
        books := decrementStock db.books v.isbn v.quantity }
      oid rest

/-- Success narrative of `create_order_safe` (the detailed `$%.2f` money
formatting and per-item stock echo of the Python string are abbreviated; no
claim inspects this text). -/

def mkOrderSuccessMsg (oid : Nat) (custName : String) (total : Int) : String :=
  "✅ Order #" ++ toString oid ++ " created successfully for " ++ custName
    ++ "! Total Amount: " ++ toString total

/-- `create_order_safe(customer_id, items)` on the lock-free path: the body of
the `with get_db_cursor()` transaction (lines 91-178).  Early `return`s leave
the database unchanged (no statement before them mutates anything); the
context manager commits on every non-exceptional return. -/

def create_order_safe (db : DB) (cid : Int) (items : List ItemReq) : String × DB :=
  match db.customers.find? (fun c => c.id == cid) with
  | none => ("Error: Customer with ID " ++ toString cid ++ " not found.", db)
  | some cust =>
    match validateLoop db.books items [] 0 with
    | .error msg => (msg, db)
    | .ok (vitems, total) =>
      let oid := db.nextOrderId
      let db1 : DB :=
        { db with
          orders := db.orders ++ [⟨oid, cid, total, "completed"⟩],
          nextOrderId := oid + 1 }
      let db2 := applyOrderItems db1 oid vitems
      match db2.orders.find? (fun o => o.id == oid) with
      | none => ("Error: Order #" ++ toString oid ++ " was not created successfully.", db2)
      | some _ => (mkOrderSuccessMsg oid cust.name total, db2)

/-! ## Spec-side descriptions of the order request -/

/-- One requested line fails one of the checks of the validation loop:
missing/empty isbn or missing/zero quantity, non-positive quantity, unknown
book, or requested quantity above the book's current stock. -/

def lineBad (books : List Book) (it : ItemReq) : Bool :=
  itemFalsy it
    || it.quantity.getD 0 ≤ 0
    || match books.find? (fun b => b.isbn == it.isbn.getD "") with
       | none => true
       | some b => b.stock < it.quantity.getD 0

/-- One requested line passes every check of the validation loop. -/

def lineGood (books : List Book) (it : ItemReq) : Bool :=
  !itemFalsy it
    && 0 < it.quantity.getD 0
    && match books.find? (fun b => b.isbn == it.isbn.getD "") with
       | none => false
       | some b => it.quantity.getD 0 ≤ b.stock

/-- The catalog price used for a line (the price of the first book whose isbn
matches, as read by the validation loop). -/

def linePrice (books : List Book) (it : ItemReq) : Int :=
  match books.find? (fun b => b.isbn == it.isbn.getD "") with
  | some b => b.price
  | none => 0

/-- Declarative order total: Σ over lines of (unit price × quantity). -/

def specTotal (books : List Book) (items : List ItemReq) : Int :=
  (items.map (fun it => linePrice books it * it.quantity.getD 0)).sum

/-- Total quantity an order request asks of one isbn (summed over all lines
naming it). -/

def requestedQty (items : List ItemReq) (isbn : String) : Int :=
  (items.map (fun it => if it.isbn.getD "" == isbn then it.quantity.getD 0 else 0)).sum

/-- The validated item the loop builds for a (good) line. -/

def resolveItem (books : List Book) (it : ItemReq) : VItem :=
  match books.find? (fun b => b.isbn == it.isbn.getD "") with
  | some b => ⟨it.isbn.getD "", b.title, it.quantity.getD 0, b.price⟩
  | none => ⟨it.isbn.getD "", "", it.quantity.getD 0, 0⟩

/-- Every book's stock is non-negative. -/

def stocksNonneg (db : DB) : Bool :=
  db.books.all (fun b => 0 ≤ b.stock)

/-- Total quantity a validated item list requests of one isbn. -/

def vQty (vs : List VItem) (isbn : String) : Int :=
  (vs.map (fun v => if v.isbn == isbn then v.quantity else 0)).sum

/-! ## Concrete states used as witnesses -/

/-- One book "X" (price 10, stock 5) and one customer Alice (id 1). -/

def c3db : DB :=
  ⟨[⟨"X", "Widget Book", "Auth", 10, 5⟩], [⟨1, "Alice", "alice@example.com"⟩], [], [], 1⟩

/-- Two lines both requesting 3 copies of "X" (the same item twice). -/

def c3items : List ItemReq := [⟨some "X", some 3⟩, ⟨some "X", some 3⟩]

/-! ## The tool executor (`gemini_agent.py`, `GeminiAgent.execute_tools`)

A tool decision is one entry of the planning output: `tool_decision.get
("tool_name")` and `tool_decision.get("parameters", {})`.  The parameter dict
is modelled as a record of optional fields (one per key any registered tool
reads). -/

structure Params where
  customer_id : Option Int := none
  items : Option (List ItemReq) := none
  isbn : Option String := none
  quantity : Option Int := none
  new_price : Option Int := none
  query : Option String := none
  order_id : Option Int := none
deriving DecidableEq, Repr

structure ToolDecision where
  tool_name : Option String := none
  parameters : Params := {}
deriving DecidableEq, Repr

/-- One entry of the returned `results` list. -/

structure ToolResult where
  tool_name : Option String
  result : String
  success : Bool
deriving DecidableEq, Repr

/-- One entry of `self.tool_usage_history`. -/

structure UsageRecord where
  tool_name : String
  parameters : Params
  result : String
  success : Bool
deriving DecidableEq, Repr

/-- The keys of the `self.tools` registry dict. -/

def knownTools : List String :=
  ["find_books", "create_order", "restock_book", "update_price", "order_status",
   "inventory_summary", "search_knowledge_base", "list_customers"]

/-- Python `str` of an optional integer, as interpolated into the
non-positive-restock message (`None` for an absent key). -/

def optIntRepr : Option Int → String
  | none => "None"
  | some n => toString n

/-- `restock_book_tool` body (`tools.py` lines 305-338): look the book up,
add the quantity, re-read the new stock. -/

def restock_core (db : DB) (isbn : String) (q : Int) : String × DB :=
  match db.books.find? (fun b => b.isbn == isbn) with
  | none => ("Error: Book with ISBN " ++ isbn ++ " not found.", db)
  | some b =>
    let books' := db.books.map
      (fun b' => if b'.isbn == isbn then { b' with stock := b'.stock + q } else b')
    let newStock := match books'.find? (fun b' => b'.isbn == isbn) with
      | some b2 => b2.stock
      | none => 0
    ("✅ Successfully restocked '" ++ b.title ++ "'! Added " ++ toString q
        ++ " copies to inventory. Previous stock: " ++ toString b.stock
        ++ " New stock: " ++ toString newStock,
      { db with books := books' })

/-- `update_price_tool` body (`tools.py` lines 340-371). -/

def update_price_core (db : DB) (isbn : String) (p : Int) : String × DB :=
  match db.books.find? (fun b => b.isbn == isbn) with
  | none => ("Error: Book with ISBN " ++ isbn ++ " not found.", db)
  | some b =>
    let books' := db.books.map
      (fun b' => if b'.isbn == isbn then { b' with price := p } else b')
    ("✅ Price updated successfully for '" ++ b.title ++ "'! Old price: "
        ++ toString b.price ++ " New price: " ++ toString p,
      { db with books := books' })

/-- `list_customers_tool` body (narrative list of customers abbreviated; the
empty-table message is the exact source string). -/

def listCustomersText (db : DB) : String :=
  if db.customers.isEmpty then "No customers found in the system."
  else "👥 **Customers List** (" ++ toString db.customers.length ++ " customers)"

/-- The registry handlers behind `self.tools[tool_name].run(parameters)`.
A missing required parameter makes the langchain/pydantic layer raise, which
is an `Except.error` here.  The read-only narrative tools (`find_books`,
`order_status`, `inventory_summary`, `search_knowledge_base`) return text no
claim inspects, so their narratives are abbreviated; the mutating tools and
`list_customers` follow the source. -/

def modelRun : String → Params → DB → Except String (String × DB)
  | "find_books", _, db => .ok ("(book search results)", db)
  | "create_order", p, db =>
    match p.customer_id, p.items with
    | some cid, some its => .ok (create_order_safe db cid its)
    | _, _ => .error "1 validation error for CreateOrderInput"
  | "restock_book", p, db =>
    match p.isbn, p.quantity with
    | some i, some q =>
      if q < 1 then .error "1 validation error for RestockBookInput"
      else .ok (restock_core db i q)
    | _, _ => .error "1 validation error for RestockBookInput"
  | "update_price", p, db =>
    match p.isbn, p.new_price with
    | some i, some np => .ok (update_price_core db i np)
    | _, _ => .error "1 validation error for UpdatePriceInput"
  | "order_status", p, db =>
    match p.order_id with
    | some _ => .ok ("(order status)", db)
    | none => .error "1 validation error for OrderStatusInput"
  | "inventory_summary", _, db => .ok ("(inventory summary)", db)
  | "search_knowledge_base", p, db =>
    match p.query with
    | some _ => .ok ("(knowledge base results)", db)
    | none => .error "1 validation error for SearchKnowledgeInput"
  | "list_customers", _, db => .ok (listCustomersText db, db)
  | _, _, _db => .error "unreachable: guarded by the registry lookup"

/-- `GeminiAgent.execute_tools` (lines 123-192), parametric in the handler
table `run`: registry lookup, the restock-quantity validation pass, handler
invocation with exception capture, history recording, result collection.
Mirrors the source exactly in which branches append to
`self.tool_usage_history`: only the two handler-invocation outcomes do. -/

def execute_tools (run : String → Params → DB → Except String (String × DB)) :
    List ToolDecision → DB → List UsageRecord →
    List ToolResult × DB × List UsageRecord
  | [], db, hist => ([], db, hist)
  | d :: rest, db, hist =>
    match d.tool_name with
    | some name =>
      if knownTools.contains name then
        if name == "restock_book" && d.parameters.quantity.getD 0 ≤ 0 then
          let msg := "Cannot use restock_book with non-positive quantity: "
            ++ optIntRepr d.parameters.quantity
          let out := execute_tools run rest db hist
          (⟨some name, msg, false⟩ :: out.1, out.2)
        else
          match run name d.parameters db with
          | .ok (txt, db1) =>
            let out := execute_tools run rest db1 (hist ++ [⟨name, d.parameters, txt, true⟩])
            (⟨some name, txt, true⟩ :: out.1, out.2)
          | .error em =>
            let msg := "Error executing tool " ++ name ++ ": " ++ em
            let out := execute_tools run rest db (hist ++ [⟨name, d.parameters, msg, false⟩])
            (⟨some name, msg, false⟩ :: out.1, out.2)
      else
        let out := execute_tools run rest db hist
        (⟨some name, "Unknown tool: " ++ name, false⟩ :: out.1, out.2)
    | none =>
      let out := execute_tools run rest db hist
      (⟨none, "Unknown tool: None", false⟩ :: out.1, out.2)

/-- A call that reaches its handler: its name is registered and it passes the
executor's validation pass (only non-positive restock quantities are
rejected there). -/

def dispatched (d : ToolDecision) : Bool :=
  match d.tool_name with
  | some name =>
    knownTools.contains name
      && !(name == "restock_book" && d.parameters.quantity.getD 0 ≤ 0)
  | none => false

/-! ## Claim theorems: validation-failure reporting (C5) -/

/-- Empty store: no customers, no books. -/

def c5db : DB := ⟨[], [], [], [], 1⟩

/-! ## The lock/retry path of order creation (C6)

`create_order_safe` wraps its transaction in
`except sqlite3.OperationalError` with a "retry once" handler — but
`tools.py` never imports `time`, so the handler's `time.sleep(0.1)` raises
`NameError`, which (being raised inside an `except` block) escapes the
function; the recursive retry call below it can never run.  The `locks`
oracle lists, per attempt, whether the storage layer reports
"database is locked" on that attempt. -/

inductive PyErr where
  | operational (msg : String)
  | nameError (msg : String)
deriving DecidableEq, Repr

def PyErr.text : PyErr → String
  | .operational m => m
  | .nameError m => m

/-- `time.sleep(0.1)` where `time` is not a name in scope. -/

def pySleep : Except PyErr Unit := .error (.nameError "name 'time' is not defined")

/-- `create_order_safe` with the lock-contention handler (lines 180-191),
instrumented with the number of attempts made.  On a lock-busy attempt the
code reaches `time.sleep` before the recursive retry, so the `NameError`
replaces the whole retry mechanism. -/

def create_order_with_locks : List Bool → DB → Int → List ItemReq →
    Except PyErr (String × DB) × Nat
  | [], db, cid, items => (.ok (create_order_safe db cid items), 1)
  | lock :: more, db, cid, items =>
    if lock then
      match pySleep with
      | .error e => (.error e, 1)
      | .ok _ =>
        let retry := create_order_with_locks more db cid items
        ((match retry.1 with
          | .ok x => .ok x
          | .error e => .ok ("Error creating order after retry: " ++ e.text, db)),
         retry.2 + 1)
    else (.ok (create_order_safe db cid items), 1)

/-! ## The pipeline entry point (C9)

`GeminiAgent.process_request` (lines 381-426), parametric in the four stage
functions (analysis, parameter planning, execution, synthesis), each of which
may raise (`Except.error`). -/

structure Analysis where
  needs_tools : Bool
  tools_needed : List String
  reasoning : String
  action_type : String
deriving DecidableEq, Repr

/-- The `analysis` entry of the returned dict: the analysis dict on the happy
path, the `{"error": str(e)}` dict on the error path. -/

inductive AnalysisOut where
  | parsed (a : Analysis)
  | failure (msg : String)
deriving DecidableEq, Repr

structure AgentResult where
  final_response : String
  analysis : AnalysisOut
  tools_used : List ToolDecision
  tool_results : List ToolResult
  needed_tools : Bool
deriving DecidableEq, Repr

/-- The `try:` body of `process_request`: analyze, optionally plan and
execute, synthesize. -/

def process_request_body (analyze : String → Except String Analysis)
    (determine : String → List String → Except String (List ToolDecision))
    (executeStage : List ToolDecision → Except String (List ToolResult))
    (finalize : String → List ToolResult → Analysis → Except String String)
    (req : String) : Except String AgentResult := do
  let analysis ← analyze req
  if analysis.needs_tools && !analysis.tools_needed.isEmpty then
    let ds ← determine req analysis.tools_needed
    if ds.isEmpty then
      let fr ← finalize req [] analysis
      pure ⟨fr, .parsed analysis, ds, [], analysis.needs_tools⟩
    else
      let rs ← executeStage ds
      let fr ← finalize req rs analysis
      pure ⟨fr, .parsed analysis, ds, rs, analysis.needs_tools⟩
  else
    let fr ← finalize req [] analysis
    pure ⟨fr, .parsed analysis, [], [], analysis.needs_tools⟩

/-- The fixed apologetic message of the `except` handler. -/

def apologyText (e : String) : String :=
  "I encountered an error while processing your request: " ++ e ++ ". Please try again."

/-- `process_request` with its catch-all handler: total by construction. -/

def process_request (analyze : String → Except String Analysis)
    (determine : String → List String → Except String (List ToolDecision))
    (executeStage : List ToolDecision → Except String (List ToolResult))
    (finalize : String → List ToolResult → Analysis → Except String String)
    (req : String) : AgentResult :=
  match process_request_body analyze determine executeStage finalize req with
  | .ok r => r
  | .error e => ⟨apologyText e, .failure e, [], [], false⟩

/-- A completion service that is down: the analysis stage raises. -/

def c9failingAnalyze : String → Except String Analysis := fun _ => .error "Service unavailable"

def c9stubDetermine : String → List String → Except String (List ToolDecision) :=
  fun _ _ => .ok []

def c9stubExecute : List ToolDecision → Except String (List ToolResult) := fun _ => .ok []

def c9stubFinalize : String → List ToolResult → Analysis → Except String String :=
  fun _ _ _ => .ok "done"

/-! ## JSON values and a model of `json.loads`

`_parse_json_response` hands text to `json.loads`; the model covers the JSON
fragment the program exchanges: `null`, booleans, integers, strings with the
single-character escapes, arrays and objects (no floats, exponents or `\u`
escapes).  Strings are kept as `List Char`. -/

inductive JVal where
  | jnull
  | jbool (b : Bool)
  | jnum (n : Int)
  | jstr (s : List Char)
  | jarr (elems : List JVal)
  | jobj (fields : List (List Char × JVal))
deriving Repr

def isWsCh (c : Char) : Bool := (c == ' ') || (c == '\t') || (c == '\n') || (c == '\r')

def skipWsL : List Char → List Char
  | c :: cs => if isWsCh c then skipWsL cs else c :: cs
  | [] => []

def isDigitCh (c : Char) : Bool := ('0' ≤ c) && (c ≤ '9')

def grabDigits : List Char → List Char × List Char
  | c :: cs =>
    if isDigitCh c then
      let p := grabDigits cs
      (c :: p.1, p.2)
    else ([], c :: cs)
  | [] => ([], [])

def digitsToNat (ds : List Char) : Nat :=
  ds.foldl (fun a c => a * 10 + (c.toNat - '0'.toNat)) 0

/-- The single-character escapes `json.loads` accepts after a backslash. -/

def unescCh (e : Char) : Option Char :=
  if e = 'n' then some '\n'
  else if e = 't' then some '\t'
  else if e = 'r' then some '\r'
  else if e = 'b' then some (Char.ofNat 8)
  else if e = 'f' then some (Char.ofNat 12)
  else if e = '"' then some '"'
  else if e = '\\' then some '\\'
  else if e = '/' then some '/'
  else none

/-- Read a string body after its opening quote, up to the closing quote. -/

def grabString : List Char → Option (List Char × List Char)
  | [] => none
  | c :: rest =>
    if c = '"' then some ([], rest)
    else if c = '\\' then
      match rest with
      | [] => none
      | e :: rest2 =>
        match unescCh e with
        | some ch => (grabString rest2).map (fun p => (ch :: p.1, p.2))
        | none => none
    else (grabString rest).map (fun p => (c :: p.1, p.2))

/-- Read an integer (the caller has seen a `-` or digit at the head). -/

def grabNumber : List Char → Option (Int × List Char)
  | [] => none
  | c :: rest =>
    if c = '-' then
      let p := grabDigits rest
      if p.1.isEmpty then none else some (-(digitsToNat p.1 : Int), p.2)
    else
      let p := grabDigits (c :: rest)
      if p.1.isEmpty then none else some ((digitsToNat p.1 : Int), p.2)

mutual

/-- One JSON value, fuel-bounded recursive descent. -/
def jparse (fuel : Nat) (cs : List Char) : Option (JVal × List Char) :=
  match fuel with
  | 0 => none
  | fuel + 1 =>
    match skipWsL cs with
    | [] => none
    | c :: r =>
      if c = '[' then
        match skipWsL r with
        | [] => none
        | c2 :: r2 =>
          if c2 = ']' then some (.jarr [], r2)
          else (jparseItems fuel (c2 :: r2)).map (fun p => (JVal.jarr p.1, p.2))
      else if c = '{' then
        match skipWsL r with
        | [] => none
        | c2 :: r2 =>
          if c2 = '}' then some (.jobj [], r2)
          else (jparseFields fuel (c2 :: r2)).map (fun p => (JVal.jobj p.1, p.2))
      else if c = '"' then
        (grabString r).map (fun p => (JVal.jstr p.1, p.2))
      else if c = '-' || isDigitCh c then
        (grabNumber (c :: r)).map (fun p => (JVal.jnum p.1, p.2))
      else if c = 'n' then
        if r.take 3 = ['u', 'l', 'l'] then some (.jnull, r.drop 3) else none
      else if c = 't' then
        if r.take 3 = ['r', 'u', 'e'] then some (.jbool true, r.drop 3) else none
      else if c = 'f' then
        if r.take 4 = ['a', 'l', 's', 'e'] then some (.jbool false, r.drop 4) else none
      else none

/-- One-or-more comma-separated array elements, then `]`. -/
def jparseItems (fuel : Nat) (cs : List Char) : Option (List JVal × List Char) :=
  match fuel with
  | 0 => none
  | fuel + 1 =>
    (jparse fuel cs).bind (fun vr =>
      match skipWsL vr.2 with
      | [] => none
      | c2 :: r2 =>
        if c2 = ',' then (jparseItems fuel r2).map (fun p => (vr.1 :: p.1, p.2))
        else if c2 = ']' then some ([vr.1], r2)
        else none)

/-- One-or-more comma-separated object members, then `}`. -/
def jparseFields (fuel : Nat) (cs : List Char) :
    Option (List (List Char × JVal) × List Char) :=
  match fuel with
  | 0 => none
  | fuel + 1 =>
    match skipWsL cs with
    | [] => none
    | c :: r =>
      if c = '"' then
        (grabString r).bind (fun kr =>
          match skipWsL kr.2 with
          | [] => none
          | c2 :: r2 =>
            if c2 = ':' then
              (jparse fuel r2).bind (fun vr =>
                match skipWsL vr.2 with
                | [] => none
                | c3 :: r4 =>
                  if c3 = ',' then
                    (jparseFields fuel r4).map (fun p => ((kr.1, vr.1) :: p.1, p.2))
                  else if c3 = '}' then some ([(kr.1, vr.1)], r4)
                  else none)
            else none)
      else none

end

/-- `json.loads`: parse one value, allow surrounding whitespace, reject
trailing characters. -/

def jloads (cs : List Char) : Option JVal :=
  (jparse (cs.length + 1) cs).bind
    (fun vr => if (skipWsL vr.2).isEmpty then some vr.1 else none)

/-! ## The response extractor (`GeminiAgent._parse_json_response`) -/

def stripLeftL (cs : List Char) : List Char := cs.dropWhile isWsCh

def stripRightL (cs : List Char) : List Char := (cs.reverse.dropWhile isWsCh).reverse

/-- Python `str.strip()`. -/

def pyStripL (cs : List Char) : List Char := stripRightL (stripLeftL cs)

def fenceOpen : List Char := ['`', '`', '`', 'j', 's', 'o', 'n']

def fenceClose : List Char := ['`', '`', '`']

/-- Lines 324-332: strip, drop a leading ```` ```json ```` marker and a
trailing ```` ``` ```` marker, strip again. -/

def pyCleanText (cs : List Char) : List Char :=
  let t1 := pyStripL cs
  let t2 := if t1.take 7 = fenceOpen then t1.drop 7 else t1
  let t3 :=
    if 3 ≤ t2.length ∧ t2.drop (t2.length - 3) = fenceClose then t2.take (t2.length - 3)
    else t2
  pyStripL t3

/-- The bracket-depth scan (lines 348-367): starting from an opener at the
head, walk the text keeping a count (`o` increments, `c` decrements) and
return how many characters were consumed when a `c` brings the count to 0. -/

def scanBal (o c : Char) : Int → List Char → Option Nat
  | _, [] => none
  | d, x :: xs =>
    if x = c ∧ d - 1 = 0 then some 1
    else (scanBal o c (if x = o then d + 1 else if x = c then d - 1 else d) xs).map (· + 1)

/-- One bracket-extraction attempt: bracket-match from position `i`, parse
the matched slice, with the empty object for a failed scan or a
`json.JSONDecodeError` (caught by the function-level handler). -/

def extractAt (cleaned : List Char) (i : Nat) (o c : Char) : JVal :=
  ((scanBal o c 0 (cleaned.drop i)).bind
    (fun n => jloads ((cleaned.drop i).take n))).getD (.jobj [])

/-- Lines 342-375: look for the first `[` (array precedence); only when no
`[` exists anywhere, look for the first `{`; extract from whichever position
was found. -/

def fallbackScan (cleaned : List Char) : JVal :=
  match cleaned.findIdx? (fun ch => ch = '[') with
  | some i => extractAt cleaned i '[' ']'
  | none =>
    match cleaned.findIdx? (fun ch => ch = '{') with
    | some i => extractAt cleaned i '{' '}'
    | none => .jobj []

/-- `GeminiAgent._parse_json_response` (lines 321-380): clean, try a direct
parse, fall back to bracket extraction, and return `{}` when nothing works
(every internal failure is caught; the function is total). -/

def parse_json_response (text : List Char) : JVal :=
  (jloads (pyCleanText text)).getD (fallbackScan (pyCleanText text))

/-! ## A canonical serializer for JSON values

Used to state the round-trip property: `ser v` is minimal textual JSON (no
whitespace, strings written raw).  `plainVal` is the side condition under
which raw strings are honest: every string (and key) avoids the quote, the
backslash and the four bracket characters. -/

def natDigitCharsF : Nat → Nat → List Char
  | 0, _ => []
  | f + 1, n =>
    if n < 10 then [Char.ofNat ('0'.toNat + n)]
    else natDigitCharsF f (n / 10) ++ [Char.ofNat ('0'.toNat + n % 10)]

def natDigitChars (n : Nat) : List Char := natDigitCharsF (n + 1) n

def intCharsOf (n : Int) : List Char :=
  (if n < 0 then ['-'] else []) ++ natDigitChars n.natAbs

mutual

def ser : JVal → List Char
  | .jnull => ['n', 'u', 'l', 'l']
  | .jbool true => ['t', 'r', 'u', 'e']
  | .jbool false => ['f', 'a', 'l', 's', 'e']
  | .jnum n => intCharsOf n
  | .jstr s => '"' :: (s ++ ['"'])
  | .jarr es => '[' :: (serItems es ++ [']'])
  | .jobj fs => '{' :: (serFields fs ++ ['}'])

def serItems : List JVal → List Char
  | [] => []
  | v :: vs => ser v ++ serItemsTail vs

def serItemsTail : List JVal → List Char
  | [] => []
  | v :: vs => ',' :: (ser v ++ serItemsTail vs)

def serFields : List (List Char × JVal) → List Char
  | [] => []
  | (k, v) :: fs => '"' :: (k ++ ['"', ':']) ++ (ser v ++ serFieldsTail fs)

def serFieldsTail : List (List Char × JVal) → List Char
  | [] => []
  | (k, v) :: fs => ',' :: ('"' :: (k ++ ['"', ':']) ++ (ser v ++ serFieldsTail fs))

end

/-- Characters allowed in "plain" strings: not a quote, a backslash or a
bracket, so raw serialization parses back and the bracket scan never sees a
bracket inside a string literal. -/

def plainChar (c : Char) : Bool :=
  !(c == '"' || c == '\\' || c == '[' || c == ']' || c == '{' || c == '}')

mutual

def plainVal : JVal → Bool
  | .jnull => true
  | .jbool _ => true
  | .jnum _ => true
  | .jstr s => s.all plainChar
  | .jarr es => plainItems es
  | .jobj fs => plainFields fs

def plainItems : List JVal → Bool
  | [] => true
  | v :: vs => plainVal v && plainItems vs

def plainFields : List (List Char × JVal) → Bool
  | [] => true
  | (k, v) :: fs => k.all plainChar && plainVal v && plainFields fs

end

/-- The value is an array or an object. -/

def isContainer : JVal → Bool
  | .jarr _ => true
  | .jobj _ => true
  | _ => false

/-! ## Round-trip lemmas: lexical layer -/

/-- A list that cannot extend a number: empty or headed by a non-digit. -/

def numSafe : List Char → Bool
  | [] => true
  | c :: _ => !isDigitCh c

/-! ## The bracket-depth scan over serialized values

The fallback extraction counts raw brackets; these lemmas show the count
walks through a serialized plain value without terminating inside it, for
either bracket pair. -/

def pairOK (o c : Char) : Prop := (o = '[' ∧ c = ']') ∨ (o = '{' ∧ c = '}')

/-! ## Defs for the claim statements: inert characters, contiguous substrings -/

/-- The characters at which `jparse` can start a value. -/

def jStartCh (c : Char) : Bool :=
  c == '[' || c == '{' || c == '"' || c == '-' || isDigitCh c
    || c == 'n' || c == 't' || c == 'f'

/-- All contiguous substrings (in Python terms, all slices) of a character
list. -/

def contigSubs (cs : List Char) : List (List Char) :=
  (List.range (cs.length + 1)).flatMap
    (fun i => (List.range (cs.length + 1)).map (fun n => (cs.drop i).take n))

/-- `t` is precisely a minimal-form JSON container literal: it parses, the
value is an object or array, and `t` is its canonical serialization (no
surrounding or internal whitespace). -/

def isExactContainer (t : List Char) : Bool :=
  match jloads t with
  | some v => isContainer v && t == ser v
  | none => false

/-- A substring that parses and whose value is a container (object/array). -/

def parsesContainer (t : List Char) : Bool :=
  match jloads t with
  | some v => isContainer v
  | none => false

/-! ## Theorems -/

/-! ## Lemmas about the validation loop -/

/-- Whenever some requested line fails a validation check, the loop returns an
error (at the first failing check it reaches). -/

theorem validateLoop_error_of_bad (books : List Book) :
    ∀ (its : List ItemReq) (acc : List VItem) (total : Int),
      (∃ it ∈ its, lineBad books it = true) →
      ∃ m, validateLoop books its acc total = .error m := by
  intro its
  induction its with
  | nil => intro acc total h; simp at h
  | cons it rest ih =>
    intro acc total h
    by_cases hf : itemFalsy it = true
    · exact ⟨"Error: Each item must have 'isbn' and 'quantity'.",
        by simp [validateLoop, hf]⟩
    · rw [Bool.not_eq_true] at hf
      by_cases hq : it.quantity.getD 0 ≤ 0
      · exact ⟨"Error: Quantity for ISBN " ++ it.isbn.getD "" ++ " must be positive.",
          by simp [validateLoop, hf, hq]⟩
      · cases hfind : books.find? (fun b => b.isbn == it.isbn.getD "") with
        | none => exact ⟨"Error: Book with ISBN " ++ it.isbn.getD "" ++ " not found.",
            by simp [validateLoop, hf, hq, hfind]⟩
        | some b =>
          by_cases hs : b.stock < it.quantity.getD 0
          · exact ⟨"Error: Not enough stock for '" ++ b.title ++ "'. Available: "
                ++ toString b.stock ++ ", Requested: " ++ toString (it.quantity.getD 0),
              by simp [validateLoop, hf, hq, hfind, hs]⟩
          · have hbad : ∃ x ∈ rest, lineBad books x = true := by
              rcases h with ⟨x, hx, hbx⟩
              rcases List.mem_cons.mp hx with rfl | hxr
              · exfalso
                unfold lineBad at hbx
                rw [hf, hfind] at hbx
                simp [hq, hs] at hbx
              · exact ⟨x, hxr, hbx⟩
            rcases ih (⟨it.isbn.getD "", b.title, it.quantity.getD 0, b.price⟩ :: acc)
                (total + b.price * it.quantity.getD 0) hbad with ⟨m, hm⟩
            refine ⟨m, ?_⟩
            rw [validateLoop]
            simp only [hf, Bool.false_eq_true, if_false, hfind]
            rw [if_neg hq, if_neg hs]
            exact hm

/-- On an all-good request the loop succeeds, resolving every line and
summing exactly Σ (unit price × quantity). -/

theorem validateLoop_ok_of_good (books : List Book) :
    ∀ (its : List ItemReq) (acc : List VItem) (total : Int),
      (∀ it ∈ its, lineGood books it = true) →
      validateLoop books its acc total =
        .ok (acc.reverse ++ its.map (resolveItem books), total + specTotal books its) := by
  intro its
  induction its with
  | nil => intro acc total _; simp [validateLoop, specTotal]
  | cons it rest ih =>
    intro acc total hall
    have hgood := hall it (by simp)
    unfold lineGood at hgood
    rw [Bool.and_eq_true, Bool.and_eq_true] at hgood
    obtain ⟨⟨hf, hq⟩, hmatch⟩ := hgood
    rw [Bool.not_eq_eq_eq_not, Bool.not_true] at hf
    rw [decide_eq_true_eq] at hq
    cases hfind : books.find? (fun b => b.isbn == it.isbn.getD "") with
    | none => rw [hfind] at hmatch; exact absurd hmatch (by simp)
    | some b =>
      rw [hfind] at hmatch
      rw [decide_eq_true_eq] at hmatch
      rw [validateLoop]
      simp only [hf, Bool.false_eq_true, if_false, hfind]
      rw [if_neg (by omega), if_neg (by omega)]
      rw [ih _ _ (fun x hx => hall x (by simp [hx]))]
      have hres : resolveItem books it = ⟨it.isbn.getD "", b.title, it.quantity.getD 0, b.price⟩ := by
        unfold resolveItem; rw [hfind]
      have hlp : linePrice books it = b.price := by
        unfold linePrice; rw [hfind]
      simp [hres, specTotal, hlp, List.reverse_cons, List.append_assoc]
      ring_nf

/-! ## Lemmas about the insertion loop -/

theorem applyOrderItems_books (oid : Nat) :
    ∀ (vs : List VItem) (db : DB),
      (applyOrderItems db oid vs).books
        = db.books.map (fun b => { b with stock := b.stock - vQty vs b.isbn }) := by
  intro vs
  induction vs with
  | nil =>
    intro db
    show db.books = _
    have : ∀ b : Book, { b with stock := b.stock - vQty [] b.isbn } = b := by
      intro b; simp [vQty]
    simp [this]
  | cons v rest ih =>
    intro db
    rw [applyOrderItems, ih]
    simp only [decrementStock, List.map_map]
    apply List.map_congr_left
    intro b _
    simp only [Function.comp_apply]
    by_cases hb : b.isbn = v.isbn
    · simp only [hb, beq_self_eq_true, if_true, vQty, List.map_cons, List.sum_cons]
      congr 1
      omega
    · have h1 : (b.isbn == v.isbn) = false := by simp [hb]
      have h2 : (v.isbn == b.isbn) = false := by
        simp only [beq_eq_false_iff_ne, ne_eq]
        intro h
        exact hb h.symm
      simp only [h1, Bool.false_eq_true, if_false, vQty, List.map_cons, List.sum_cons, h2]
      congr 1
      omega

theorem applyOrderItems_orders (oid : Nat) :
    ∀ (vs : List VItem) (db : DB), (applyOrderItems db oid vs).orders = db.orders := by
  intro vs
  induction vs with
  | nil => intro db; rfl
  | cons v rest ih => intro db; rw [applyOrderItems, ih]

theorem applyOrderItems_customers (oid : Nat) :
    ∀ (vs : List VItem) (db : DB), (applyOrderItems db oid vs).customers = db.customers := by
  intro vs
  induction vs with
  | nil => intro db; rfl
  | cons v rest ih => intro db; rw [applyOrderItems, ih]

theorem applyOrderItems_nextOrderId (oid : Nat) :
    ∀ (vs : List VItem) (db : DB), (applyOrderItems db oid vs).nextOrderId = db.nextOrderId := by
  intro vs
  induction vs with
  | nil => intro db; rfl
  | cons v rest ih => intro db; rw [applyOrderItems, ih]

theorem applyOrderItems_orderItems (oid : Nat) :
    ∀ (vs : List VItem) (db : DB),
      (applyOrderItems db oid vs).orderItems
        = db.orderItems ++ vs.map (fun v => ⟨oid, v.isbn, v.quantity, v.unit_price⟩) := by
  intro vs
  induction vs with
  | nil => intro db; simp [applyOrderItems]
  | cons v rest ih => intro db; rw [applyOrderItems, ih]; simp

theorem resolveItem_isbn (books : List Book) (it : ItemReq) :
    (resolveItem books it).isbn = it.isbn.getD "" := by
  unfold resolveItem
  cases books.find? (fun b => b.isbn == it.isbn.getD "") <;> rfl

theorem resolveItem_qty (books : List Book) (it : ItemReq) :
    (resolveItem books it).quantity = it.quantity.getD 0 := by
  unfold resolveItem
  cases books.find? (fun b => b.isbn == it.isbn.getD "") <;> rfl

theorem resolveItem_price (books : List Book) (it : ItemReq) :
    (resolveItem books it).unit_price = linePrice books it := by
  unfold resolveItem linePrice
  cases books.find? (fun b => b.isbn == it.isbn.getD "") <;> rfl

theorem vQty_resolve (books : List Book) (items : List ItemReq) (s : String) :
    vQty (items.map (resolveItem books)) s = requestedQty items s := by
  induction items with
  | nil => rfl
  | cons it rest ih =>
    simp only [vQty, requestedQty, List.map_cons, List.sum_cons, List.map_map] at *
    rw [← ih]
    simp [resolveItem_isbn, resolveItem_qty]

/-! ## Claim theorems: the order transaction -/

/-- C1: whenever the customer is missing or some requested line fails a
validation check (missing/unknown item, non-positive quantity, or quantity
above the current stock), `create_order_safe` returns with the database
exactly as it was: no order row, no order-item rows, every stock unchanged
(all-or-nothing). -/

theorem c1_order_failure_all_or_nothing (db : DB) (cid : Int) (items : List ItemReq)
    (h : db.customers.find? (fun c => c.id == cid) = none ∨
         ∃ it ∈ items, lineBad db.books it = true) :
    (create_order_safe db cid items).2 = db := by
  rcases h with hc | hbad
  · simp [create_order_safe, hc]
  · cases hcust : db.customers.find? (fun c => c.id == cid) with
    | none => simp [create_order_safe, hcust]
    | some cust =>
      rcases validateLoop_error_of_bad db.books items [] 0 hbad with ⟨m, hm⟩
      simp [create_order_safe, hcust, hm]

/-- Witness for C1: ordering 6 copies of "X" (stock 5) fails and leaves the
database untouched. -/

theorem c1_order_failure_all_or_nothing_witness :
    (∃ it ∈ [ItemReq.mk (some "X") (some 6)], lineBad c3db.books it = true) ∧
    (create_order_safe c3db 1 [⟨some "X", some 6⟩]).2 = c3db :=
  ⟨by decide, c1_order_failure_all_or_nothing c3db 1 _ (Or.inr (by decide))⟩

/-- C2: for an existing customer and a request every line of which is valid
(positive quantity, known item, quantity ≤ current stock), order creation
succeeds: one `completed` order row is appended whose total is
Σ (unit price × quantity) over the lines, one order-item row is inserted per
line, each book's stock drops by exactly the quantity the request asks of its
isbn, and no other book's stock (nor any customer) changes. -/

theorem c2_order_success_spec (db : DB) (cid : Int) (items : List ItemReq) (cust : Customer)
    (hc : db.customers.find? (fun c => c.id == cid) = some cust)
    (hall : ∀ it ∈ items, lineGood db.books it = true) :
    (create_order_safe db cid items).2.orders
        = db.orders ++ [⟨db.nextOrderId, cid, specTotal db.books items, "completed"⟩] ∧
    (create_order_safe db cid items).2.books
        = db.books.map (fun b => { b with stock := b.stock - requestedQty items b.isbn }) ∧
    (create_order_safe db cid items).2.orderItems
        = db.orderItems ++ items.map (fun it =>
            ⟨db.nextOrderId, it.isbn.getD "", it.quantity.getD 0, linePrice db.books it⟩) ∧
    (create_order_safe db cid items).2.customers = db.customers ∧
    (create_order_safe db cid items).1
        = mkOrderSuccessMsg db.nextOrderId cust.name (specTotal db.books items) := by
  have hvl := validateLoop_ok_of_good db.books items [] 0 hall
  simp only [List.reverse_nil, List.nil_append, zero_add] at hvl
  have hrow : OrderRow.mk db.nextOrderId cid (specTotal db.books items) "completed"
      ∈ db.orders ++ [⟨db.nextOrderId, cid, specTotal db.books items, "completed"⟩] := by
    simp
  unfold create_order_safe
  rw [hc, hvl]
  simp only
  cases hfound : (applyOrderItems
      { db with
        orders := db.orders ++ [⟨db.nextOrderId, cid, specTotal db.books items, "completed"⟩],
        nextOrderId := db.nextOrderId + 1 }
      db.nextOrderId (items.map (resolveItem db.books))).orders.find?
        (fun o => o.id == db.nextOrderId) with
  | none =>
    exfalso
    rw [applyOrderItems_orders] at hfound
    rw [List.find?_eq_none] at hfound
    exact absurd (by simp : (((⟨db.nextOrderId, cid, specTotal db.books items,
      "completed"⟩ : OrderRow)).id == db.nextOrderId) = true) (by simpa using hfound _ hrow)
  | some o =>
    refine ⟨?_, ?_, ?_, ?_, rfl⟩
    · rw [applyOrderItems_orders]
    · rw [applyOrderItems_books]
      simp only
      apply List.map_congr_left
      intro b _
      rw [vQty_resolve]
    · rw [applyOrderItems_orderItems]
      simp only [List.map_map]
      congr 1
      apply List.map_congr_left
      intro it _
      simp [Function.comp_apply, resolveItem_isbn, resolveItem_qty, resolveItem_price]
    · rw [applyOrderItems_customers]

/-- Witness for C2, the spec's scenario: stock 5 at price 10, ordering 3
copies gives a completed order with total 30 and stock 2. -/

theorem c2_order_success_spec_witness :
    (∀ it ∈ [ItemReq.mk (some "X") (some 3)], lineGood c3db.books it = true) ∧
    (create_order_safe c3db 1 [⟨some "X", some 3⟩]).2.orders
      = c3db.orders ++ [⟨c3db.nextOrderId, 1, specTotal c3db.books [⟨some "X", some 3⟩], "completed"⟩] ∧
    (create_order_safe c3db 1 [⟨some "X", some 3⟩]).2.books
      = c3db.books.map (fun b => { b with stock := b.stock - requestedQty [⟨some "X", some 3⟩] b.isbn }) :=
  ⟨by decide,
    (c2_order_success_spec c3db 1 _ ⟨1, "Alice", "alice@example.com"⟩ (by decide) (by decide)).1,
    (c2_order_success_spec c3db 1 _ ⟨1, "Alice", "alice@example.com"⟩ (by decide) (by decide)).2.1⟩

/-- C3 (code bug): a request that names the same item on two lines passes the
per-line stock checks (each is made against the original stock), so the order
is created and the duplicated decrements drive the stock negative: from stock
5, two lines of 3 copies of "X" leave stock −1, violating the non-negativity
invariant (`schemas.BookBase` declares `stock: ge=0`). -/

theorem c3_duplicate_lines_break_stock_invariant :
    stocksNonneg c3db = true ∧
    stocksNonneg (create_order_safe c3db 1 c3items).2 = false ∧
    (create_order_safe c3db 1 c3items).2.books
      = [⟨"X", "Widget Book", "Auth", 10, -1⟩] ∧
    (create_order_safe c3db 1 c3items).2.orders
      = [⟨1, 1, 60, "completed"⟩] := by
  decide

/-! One-step unfolding lemmas for the executor, one per branch. -/

theorem execute_tools_step_none (run : String → Params → DB → Except String (String × DB))
    (d : ToolDecision) (rest : List ToolDecision) (db : DB) (hist : List UsageRecord)
    (h : d.tool_name = none) :
    execute_tools run (d :: rest) db hist
      = ((⟨none, "Unknown tool: None", false⟩ : ToolResult)
            :: (execute_tools run rest db hist).1,
         (execute_tools run rest db hist).2) := by
  rw [execute_tools, h]

theorem execute_tools_step_unknown (run : String → Params → DB → Except String (String × DB))
    (d : ToolDecision) (rest : List ToolDecision) (db : DB) (hist : List UsageRecord)
    (name : String) (h : d.tool_name = some name) (hk : knownTools.contains name = false) :
    execute_tools run (d :: rest) db hist
      = ((⟨some name, "Unknown tool: " ++ name, false⟩ : ToolResult)
            :: (execute_tools run rest db hist).1,
         (execute_tools run rest db hist).2) := by
  rw [execute_tools, h]
  simp only [hk, Bool.false_eq_true, if_false]

theorem execute_tools_step_reject (run : String → Params → DB → Except String (String × DB))
    (d : ToolDecision) (rest : List ToolDecision) (db : DB) (hist : List UsageRecord)
    (name : String) (h : d.tool_name = some name) (hk : knownTools.contains name = true)
    (hr : (name == "restock_book" && decide (d.parameters.quantity.getD 0 ≤ 0)) = true) :
    execute_tools run (d :: rest) db hist
      = ((⟨some name, "Cannot use restock_book with non-positive quantity: "
              ++ optIntRepr d.parameters.quantity, false⟩ : ToolResult)
            :: (execute_tools run rest db hist).1,
         (execute_tools run rest db hist).2) := by
  rw [execute_tools, h]
  simp only [hk, if_true, hr]

theorem execute_tools_step_ok (run : String → Params → DB → Except String (String × DB))
    (d : ToolDecision) (rest : List ToolDecision) (db : DB) (hist : List UsageRecord)
    (name : String) (txt : String) (db1 : DB)
    (h : d.tool_name = some name) (hk : knownTools.contains name = true)
    (hr : (name == "restock_book" && decide (d.parameters.quantity.getD 0 ≤ 0)) = false)
    (hrun : run name d.parameters db = .ok (txt, db1)) :
    execute_tools run (d :: rest) db hist
      = ((⟨some name, txt, true⟩ : ToolResult)
            :: (execute_tools run rest db1 (hist ++ [⟨name, d.parameters, txt, true⟩])).1,
         (execute_tools run rest db1 (hist ++ [⟨name, d.parameters, txt, true⟩])).2) := by
  rw [execute_tools, h]
  simp only [hk, if_true, hr, Bool.false_eq_true, if_false, hrun]

theorem execute_tools_step_err (run : String → Params → DB → Except String (String × DB))
    (d : ToolDecision) (rest : List ToolDecision) (db : DB) (hist : List UsageRecord)
    (name : String) (em : String)
    (h : d.tool_name = some name) (hk : knownTools.contains name = true)
    (hr : (name == "restock_book" && decide (d.parameters.quantity.getD 0 ≤ 0)) = false)
    (hrun : run name d.parameters db = .error em) :
    execute_tools run (d :: rest) db hist
      = ((⟨some name, "Error executing tool " ++ name ++ ": " ++ em, false⟩ : ToolResult)
            :: (execute_tools run rest db
                  (hist ++ [⟨name, d.parameters,
                    "Error executing tool " ++ name ++ ": " ++ em, false⟩])).1,
         (execute_tools run rest db
            (hist ++ [⟨name, d.parameters,
              "Error executing tool " ++ name ++ ": " ++ em, false⟩])).2) := by
  rw [execute_tools, h]
  simp only [hk, if_true, hr, Bool.false_eq_true, if_false, hrun]

/-- The result list (and the database evolution) of the executor never read
the incoming usage history: it is only appended to. -/

theorem execute_tools_hist_irrelevant (run : String → Params → DB → Except String (String × DB)) :
    ∀ (ds : List ToolDecision) (db : DB) (h1 h2 : List UsageRecord),
      (execute_tools run ds db h1).1 = (execute_tools run ds db h2).1 ∧
      (execute_tools run ds db h1).2.1 = (execute_tools run ds db h2).2.1 := by
  intro ds
  induction ds with
  | nil => intro db h1 h2; exact ⟨rfl, rfl⟩
  | cons d rest ih =>
    intro db h1 h2
    cases hname : d.tool_name with
    | none =>
      rw [execute_tools_step_none run d rest db h1 hname,
          execute_tools_step_none run d rest db h2 hname]
      exact ⟨by rw [(ih db h1 h2).1], by rw [(ih db h1 h2).2]⟩
    | some name =>
      cases hk : knownTools.contains name with
      | false =>
        rw [execute_tools_step_unknown run d rest db h1 name hname hk,
            execute_tools_step_unknown run d rest db h2 name hname hk]
        exact ⟨by rw [(ih db h1 h2).1], by rw [(ih db h1 h2).2]⟩
      | true =>
        cases hr : (name == "restock_book" && decide (d.parameters.quantity.getD 0 ≤ 0)) with
        | true =>
          rw [execute_tools_step_reject run d rest db h1 name hname hk hr,
              execute_tools_step_reject run d rest db h2 name hname hk hr]
          exact ⟨by rw [(ih db h1 h2).1], by rw [(ih db h1 h2).2]⟩
        | false =>
          cases hrun : run name d.parameters db with
          | ok r =>
            rw [execute_tools_step_ok run d rest db h1 name r.1 r.2 hname hk hr (by rw [hrun]),
                execute_tools_step_ok run d rest db h2 name r.1 r.2 hname hk hr (by rw [hrun])]
            exact ⟨by rw [(ih r.2 _ _).1], by rw [(ih r.2 _ _).2]⟩
          | error em =>
            rw [execute_tools_step_err run d rest db h1 name em hname hk hr hrun,
                execute_tools_step_err run d rest db h2 name em hname hk hr hrun]
            exact ⟨by rw [(ih db _ _).1], by rw [(ih db _ _).2]⟩

/-! ## Claim theorems: the executor's usage history (C4) -/

/-- C4 counterexample: a batch of one call naming an unregistered operation
returns one (failed) result but appends nothing to the usage history: the
history grows by 0, not by N = 1. -/

theorem c4_counterexample_unknown_tool_unlogged :
    ((execute_tools modelRun [⟨some "bogus_tool", {}⟩] c3db []).2.2).length = 0 ∧
    ((execute_tools modelRun [⟨some "bogus_tool", {}⟩] c3db []).1).length = 1 ∧
    (0 : Nat) ≠ 1 := by
  decide

/-- C4 amended: the usage history grows by exactly the number of calls that
reach their handler (registered name, restock-quantity validation passed) —
for those, one record is appended whether the handler succeeds or raises;
unknown-operation calls and validation-rejected calls append nothing. -/

theorem c4_amended_history_per_dispatched_call
    (run : String → Params → DB → Except String (String × DB)) :
    ∀ (ds : List ToolDecision) (db : DB) (hist : List UsageRecord),
      ((execute_tools run ds db hist).2.2).length
        = hist.length + ds.countP (fun d => dispatched d) := by
  intro ds
  induction ds with
  | nil => intro db hist; simp [execute_tools]
  | cons d rest ih =>
    intro db hist
    rw [List.countP_cons]
    cases hname : d.tool_name with
    | none =>
      rw [execute_tools_step_none run d rest db hist hname]
      have hd : dispatched d = false := by unfold dispatched; rw [hname]
      rw [ih]
      simp [hd]
    | some name =>
      have hstep : dispatched d = (knownTools.contains name
          && !(name == "restock_book" && decide (d.parameters.quantity.getD 0 ≤ 0))) := by
        unfold dispatched; rw [hname]
      cases hk : knownTools.contains name with
      | false =>
        rw [execute_tools_step_unknown run d rest db hist name hname hk]
        have hd : dispatched d = false := by rw [hstep, hk]; rfl
        rw [ih]
        simp [hd]
      | true =>
        cases hr : (name == "restock_book" && decide (d.parameters.quantity.getD 0 ≤ 0)) with
        | true =>
          rw [execute_tools_step_reject run d rest db hist name hname hk hr]
          have hd : dispatched d = false := by rw [hstep, hk, hr]; rfl
          rw [ih]
          simp [hd]
        | false =>
          have hd : dispatched d = true := by rw [hstep, hk, hr]; rfl
          cases hrun : run name d.parameters db with
          | ok r =>
            rw [execute_tools_step_ok run d rest db hist name r.1 r.2 hname hk hr (by rw [hrun])]
            rw [ih]
            simp [hd]
            omega
          | error em =>
            rw [execute_tools_step_err run d rest db hist name em hname hk hr hrun]
            rw [ih]
            simp [hd]
            omega

/-- C5 counterexample: a `create_order` call whose handler detects a missing
customer returns the human-readable reason, but the executor records
`success := true` for it (the claim requires `false`); the sibling call in
the batch still executes. -/

theorem c5_counterexample_handler_failure_marked_success :
    (execute_tools modelRun
        [⟨some "create_order", { customer_id := some 99, items := some [⟨some "X", some 1⟩] }⟩,
         ⟨some "list_customers", {}⟩] c5db []).1
      = [⟨some "create_order", "Error: Customer with ID 99 not found.", true⟩,
         ⟨some "list_customers", "No customers found in the system.", true⟩] := by
  decide

/-- C5 amended: only the executor's own validation pass (non-positive restock
quantity; unknown names) produces `success = false` results; a validation
failure detected inside a handler (here: `create_order` with an unknown
customer) is returned with its human-readable reason in the text but with
`success = true`.  In both cases the remaining calls of the batch still
execute, on an unchanged database. -/

theorem c5_amended_validation_reporting (db : DB) (hist : List UsageRecord)
    (p p2 : Params) (rest : List ToolDecision) (cid : Int) (its : List ItemReq)
    (hq : p.quantity.getD 0 ≤ 0)
    (hcid : p2.customer_id = some cid) (hitems : p2.items = some its)
    (hc : db.customers.find? (fun c => c.id == cid) = none) :
    (execute_tools modelRun (⟨some "restock_book", p⟩ :: rest) db hist).1
      = ⟨some "restock_book",
          "Cannot use restock_book with non-positive quantity: " ++ optIntRepr p.quantity,
          false⟩ :: (execute_tools modelRun rest db hist).1 ∧
    (execute_tools modelRun (⟨some "create_order", p2⟩ :: rest) db hist).1
      = ⟨some "create_order", "Error: Customer with ID " ++ toString cid ++ " not found.", true⟩
          :: (execute_tools modelRun rest db hist).1 := by
  constructor
  · rw [execute_tools_step_reject modelRun _ rest db hist "restock_book" rfl (by decide)
         (by simp [hq])]
  · have hrun : modelRun "create_order" p2 db
        = .ok ("Error: Customer with ID " ++ toString cid ++ " not found.", db) := by
      have h1 : modelRun "create_order" p2 db
          = (match p2.customer_id, p2.items with
             | some cid', some its' => Except.ok (create_order_safe db cid' its')
             | _, _ => Except.error "1 validation error for CreateOrderInput") := rfl
      rw [h1, hcid, hitems]
      show Except.ok (create_order_safe db cid its) = _
      unfold create_order_safe
      rw [hc]
    rw [execute_tools_step_ok modelRun _ rest db hist "create_order"
         ("Error: Customer with ID " ++ toString cid ++ " not found.") db rfl (by decide)
         (by rw [show (("create_order" : String) == "restock_book") = false from by decide]; rfl)
         hrun]
    exact congrArg _ (execute_tools_hist_irrelevant modelRun rest db _ hist).1

/-- Witness for the amended C5. -/

theorem c5_amended_validation_reporting_witness :
    ((({ quantity := some 0 } : Params).quantity.getD 0 ≤ 0) ∧
      c5db.customers.find? (fun c => c.id == 99) = none) ∧
    (execute_tools modelRun
        [⟨some "restock_book", { quantity := some 0 }⟩] c5db []).1
      = ⟨some "restock_book", "Cannot use restock_book with non-positive quantity: 0", false⟩
          :: (execute_tools modelRun [] c5db []).1 :=
  ⟨⟨by decide, by decide⟩,
    (c5_amended_validation_reporting c5db [] { quantity := some 0 }
      { customer_id := some 99, items := some [⟨some "X", some 1⟩] } [] 99 [⟨some "X", some 1⟩]
      (by decide) rfl rfl (by decide)).1⟩

/-- C6 (code bug): the first lock-busy condition already aborts with
`NameError: name 'time' is not defined` — there is never a retry (every run
makes exactly one attempt), and no "system busy" result is produced by this
path. -/

theorem c6_lock_busy_aborts_without_retry :
    (∀ (locks : List Bool) (db : DB) (cid : Int) (items : List ItemReq),
        (create_order_with_locks locks db cid items).2 = 1) ∧
    create_order_with_locks [true] c3db 1 [⟨some "X", some 1⟩]
      = (.error (.nameError "name 'time' is not defined"), 1) := by
  refine ⟨?_, rfl⟩
  intro locks db cid items
  cases locks with
  | nil => rfl
  | cons lock more =>
    cases lock with
    | false => rfl
    | true => rfl

/-- C9: the entry point is a total function of its stages (it never raises:
every stage exception is an `Except.error` of the body, and the body's every
error is caught), and whenever the body raises, the returned result is the
apologetic message with the error reason embedded in it, an empty
operation-call list, an empty result list, and `needed_tools = false`. -/

theorem c9_entry_point_error_normalization
    (analyze : String → Except String Analysis)
    (determine : String → List String → Except String (List ToolDecision))
    (executeStage : List ToolDecision → Except String (List ToolResult))
    (finalize : String → List ToolResult → Analysis → Except String String)
    (req e : String)
    (h : process_request_body analyze determine executeStage finalize req = .error e) :
    process_request analyze determine executeStage finalize req
      = ⟨apologyText e, .failure e, [], [], false⟩ ∧
    e.data <:+: (apologyText e).data := by
  constructor
  · unfold process_request
    rw [h]
  · exact ⟨"I encountered an error while processing your request: ".data,
      ". Please try again.".data, by simp [apologyText]⟩

/-- Witness for C9. -/

theorem c9_entry_point_error_normalization_witness :
    process_request c9failingAnalyze c9stubDetermine c9stubExecute c9stubFinalize "hello"
      = ⟨apologyText "Service unavailable", .failure "Service unavailable", [], [], false⟩ ∧
    ("Service unavailable").data <:+: (apologyText "Service unavailable").data :=
  c9_entry_point_error_normalization c9failingAnalyze c9stubDetermine c9stubExecute
    c9stubFinalize "hello" "Service unavailable" rfl

theorem natDigitCharsF_eq : ∀ (n f g : Nat), n < f → n < g →
    natDigitCharsF f n = natDigitCharsF g n := by
  intro n
  induction n using Nat.strong_induction_on with
  | _ n ih =>
    intro f g hf hg
    cases f with
    | zero => omega
    | succ f =>
      cases g with
      | zero => omega
      | succ g =>
        rw [natDigitCharsF, natDigitCharsF]
        by_cases h : n < 10
        · rw [if_pos h, if_pos h]
        · rw [if_neg h, if_neg h, ih (n / 10) (by omega) f g (by omega) (by omega)]

/-- The recursive unfolding of `natDigitChars`. -/

theorem natDigitChars_eq (n : Nat) :
    natDigitChars n = if n < 10 then [Char.ofNat ('0'.toNat + n)]
      else natDigitChars (n / 10) ++ [Char.ofNat ('0'.toNat + n % 10)] := by
  unfold natDigitChars
  rw [natDigitCharsF]
  by_cases h : n < 10
  · rw [if_pos h, if_pos h]
  · rw [if_neg h, if_neg h,
      natDigitCharsF_eq (n / 10) n (n / 10 + 1) (by omega) (by omega)]

theorem digitVal_ofNat (m : Nat) (hk : m < 10) :
    (Char.ofNat ('0'.toNat + m)).toNat - '0'.toNat = m
      ∧ isDigitCh (Char.ofNat ('0'.toNat + m)) = true := by
  interval_cases m <;> exact ⟨by decide, by decide⟩

theorem natDigitChars_all_digits (n : Nat) : ∀ c ∈ natDigitChars n, isDigitCh c = true := by
  induction n using Nat.strong_induction_on with
  | _ n ih =>
    rw [natDigitChars_eq]
    by_cases h : n < 10
    · simp only [if_pos h]
      intro c hc
      rw [List.mem_singleton] at hc
      subst hc
      exact (digitVal_ofNat n h).2
    · simp only [if_neg h]
      intro c hc
      rcases List.mem_append.mp hc with h1 | h2
      · exact ih (n / 10) (by omega) c h1
      · rw [List.mem_singleton] at h2
        subst h2
        exact (digitVal_ofNat (n % 10) (by omega)).2

theorem natDigitChars_ne_nil (n : Nat) : natDigitChars n ≠ [] := by
  rw [natDigitChars_eq]
  by_cases h : n < 10 <;> simp [h]

theorem digitsToNat_natDigitChars (n : Nat) : digitsToNat (natDigitChars n) = n := by
  induction n using Nat.strong_induction_on with
  | _ n ih =>
    rw [natDigitChars_eq]
    by_cases h : n < 10
    · simp only [if_pos h, digitsToNat, List.foldl_cons, List.foldl_nil]
      rw [Nat.zero_mul, Nat.zero_add, (digitVal_ofNat n h).1]
    · simp only [if_neg h, digitsToNat, List.foldl_append, List.foldl_cons, List.foldl_nil]
      have hrec := ih (n / 10) (by omega)
      unfold digitsToNat at hrec
      rw [hrec, (digitVal_ofNat (n % 10) (by omega)).1]
      omega

theorem natDigitChars_head (m : Nat) :
    ∃ d t, natDigitChars m = d :: t ∧ isDigitCh d = true := by
  cases hd : natDigitChars m with
  | nil => exact absurd hd (natDigitChars_ne_nil m)
  | cons d t =>
    refine ⟨d, t, rfl, natDigitChars_all_digits m d ?_⟩
    rw [hd]
    exact List.mem_cons_self _ _

/-- A digit differs from any non-digit character. -/

theorem digit_ne {c : Char} (h : isDigitCh c = true) (x : Char) (hx : isDigitCh x = false) :
    c ≠ x := by
  intro he
  subst he
  rw [h] at hx
  cases hx

theorem digit_not_ws {c : Char} (h : isDigitCh c = true) : isWsCh c = false := by
  cases hw : isWsCh c with
  | false => rfl
  | true =>
    exfalso
    unfold isWsCh at hw
    simp only [Bool.or_eq_true, beq_iff_eq] at hw
    rcases hw with ((rfl | rfl) | rfl) | rfl <;> exact absurd h (by decide)

theorem skipWsL_nonws {c : Char} (h : isWsCh c = false) (r : List Char) :
    skipWsL (c :: r) = c :: r := by
  rw [skipWsL]
  simp [h]

theorem grabDigits_stop (cs : List Char) (h : numSafe cs = true) : grabDigits cs = ([], cs) := by
  cases cs with
  | nil => rfl
  | cons c t =>
    unfold numSafe at h
    rw [Bool.not_eq_true'] at h
    rw [grabDigits]
    simp [h]

theorem grabDigits_run (dcs : List Char) (hds : ∀ d ∈ dcs, isDigitCh d = true)
    (rest : List Char) (hrest : grabDigits rest = ([], rest)) :
    grabDigits (dcs ++ rest) = (dcs, rest) := by
  induction dcs with
  | nil =>
    simpa using hrest
  | cons d dt ih =>
    have hd := hds d (List.mem_cons_self _ _)
    rw [List.cons_append, grabDigits]
    simp [hd, ih (fun x hx => hds x (List.mem_cons_of_mem _ hx))]

/-! One-step unfolding lemmas (the functions' equation lemmas are guarded by
the nested matches, so each is exposed once here). -/

theorem grabString_cons (c : Char) (rest : List Char) :
    grabString (c :: rest)
      = (if c = '"' then some ([], rest)
         else if c = '\\' then
           match rest with
           | [] => none
           | e :: rest2 =>
             match unescCh e with
             | some ch => (grabString rest2).map (fun p => (ch :: p.1, p.2))
             | none => none
         else (grabString rest).map (fun p => (c :: p.1, p.2))) := by
  rw [grabString.eq_def]

theorem grabNumber_cons (c : Char) (rest : List Char) :
    grabNumber (c :: rest)
      = (if c = '-' then
           if (grabDigits rest).1.isEmpty then none
           else some (-(digitsToNat (grabDigits rest).1 : Int), (grabDigits rest).2)
         else
           if (grabDigits (c :: rest)).1.isEmpty then none
           else some ((digitsToNat (grabDigits (c :: rest)).1 : Int), (grabDigits (c :: rest)).2)) := by
  rw [grabNumber.eq_def]

theorem jparse_succ_cons (f : Nat) (cs : List Char) (c : Char) (r : List Char)
    (hcs : skipWsL cs = c :: r) :
    jparse (f + 1) cs
      = (if c = '[' then
           match skipWsL r with
           | [] => none
           | c2 :: r2 =>
             if c2 = ']' then some (.jarr [], r2)
             else (jparseItems f (c2 :: r2)).map (fun p => (JVal.jarr p.1, p.2))
         else if c = '{' then
           match skipWsL r with
           | [] => none
           | c2 :: r2 =>
             if c2 = '}' then some (.jobj [], r2)
             else (jparseFields f (c2 :: r2)).map (fun p => (JVal.jobj p.1, p.2))
         else if c = '"' then
           (grabString r).map (fun p => (JVal.jstr p.1, p.2))
         else if c = '-' || isDigitCh c then
           (grabNumber (c :: r)).map (fun p => (JVal.jnum p.1, p.2))
         else if c = 'n' then
           if r.take 3 = ['u', 'l', 'l'] then some (.jnull, r.drop 3) else none
         else if c = 't' then
           if r.take 3 = ['r', 'u', 'e'] then some (.jbool true, r.drop 3) else none
         else if c = 'f' then
           if r.take 4 = ['a', 'l', 's', 'e'] then some (.jbool false, r.drop 4) else none
         else none) := by
  rw [jparse.eq_def, hcs]

theorem jparseItems_succ (f : Nat) (cs : List Char) :
    jparseItems (f + 1) cs
      = (jparse f cs).bind (fun vr =>
          match skipWsL vr.2 with
          | [] => none
          | c2 :: r2 =>
            if c2 = ',' then (jparseItems f r2).map (fun p => (vr.1 :: p.1, p.2))
            else if c2 = ']' then some ([vr.1], r2)
            else none) := by
  rw [jparseItems.eq_def]

theorem jparseFields_succ_cons (f : Nat) (cs : List Char) (c : Char) (r : List Char)
    (hcs : skipWsL cs = c :: r) :
    jparseFields (f + 1) cs
      = (if c = '"' then
           (grabString r).bind (fun kr =>
             match skipWsL kr.2 with
             | [] => none
             | c2 :: r2 =>
               if c2 = ':' then
                 (jparse f r2).bind (fun vr =>
                   match skipWsL vr.2 with
                   | [] => none
                   | c3 :: r4 =>
                     if c3 = ',' then
                       (jparseFields f r4).map (fun p => ((kr.1, vr.1) :: p.1, p.2))
                     else if c3 = '}' then some ([(kr.1, vr.1)], r4)
                     else none)
               else none)
         else none) := by
  rw [jparseFields.eq_def, hcs]

theorem natDigitChars_not_empty (n : Nat) : (natDigitChars n).isEmpty = false := by
  cases hd : natDigitChars n with
  | nil => exact absurd hd (natDigitChars_ne_nil n)
  | cons d t => rfl

theorem grabNumber_ser (n : Int) (rest : List Char) (hr : numSafe rest = true) :
    grabNumber (intCharsOf n ++ rest) = some (n, rest) := by
  unfold intCharsOf
  by_cases hn : n < 0
  · rw [if_pos hn]
    simp only [List.cons_append, List.nil_append]
    rw [grabNumber_cons]
    rw [if_pos rfl]
    rw [grabDigits_run _ (natDigitChars_all_digits _) rest (grabDigits_stop rest hr)]
    simp only [natDigitChars_not_empty, Bool.false_eq_true, if_false]
    rw [digitsToNat_natDigitChars]
    have hv : -((n.natAbs : Nat) : Int) = n := by omega
    rw [hv]
  · rw [if_neg hn, List.nil_append]
    obtain ⟨d, t, hd, hdd⟩ := natDigitChars_head n.natAbs
    rw [hd, List.cons_append, grabNumber_cons]
    rw [if_neg (digit_ne hdd '-' (by decide))]
    rw [← List.cons_append, ← hd]
    rw [grabDigits_run _ (natDigitChars_all_digits _) rest (grabDigits_stop rest hr)]
    simp only [natDigitChars_not_empty, Bool.false_eq_true, if_false]
    rw [digitsToNat_natDigitChars]
    have hv : ((n.natAbs : Nat) : Int) = n := by omega
    rw [hv]

theorem plainChar_props {c : Char} (hc : plainChar c = true) :
    c ≠ '"' ∧ c ≠ '\\' ∧ c ≠ '[' ∧ c ≠ ']' ∧ c ≠ '{' ∧ c ≠ '}' := by
  unfold plainChar at hc
  rw [Bool.not_eq_eq_eq_not, Bool.not_true] at hc
  simp only [Bool.or_eq_false_iff, beq_eq_false_iff_ne, ne_eq] at hc
  exact ⟨hc.1.1.1.1.1, hc.1.1.1.1.2, hc.1.1.1.2, hc.1.1.2, hc.1.2, hc.2⟩

theorem grabString_plain (s : List Char) (hs : s.all plainChar = true) (rest : List Char) :
    grabString (s ++ '"' :: rest) = some (s, rest) := by
  induction s with
  | nil =>
    rw [List.nil_append, grabString_cons]
    rw [if_pos rfl]
  | cons c t ih =>
    rw [List.all_cons, Bool.and_eq_true] at hs
    obtain ⟨h1, h2, _, _, _, _⟩ := plainChar_props hs.1
    rw [List.cons_append, grabString_cons]
    rw [if_neg h1, if_neg h2, ih hs.2]
    rfl

/-! ## The round-trip theorem -/

theorem serItemsTail_cons (v : JVal) (vs : List JVal) :
    serItemsTail (v :: vs) = ',' :: serItems (v :: vs) := rfl

theorem ser_head (v : JVal) :
    ∃ c t, ser v = c :: t ∧ isWsCh c = false ∧ c ≠ ']' := by
  cases v with
  | jnull => exact ⟨'n', _, rfl, by decide, by decide⟩
  | jbool b =>
    cases b with
    | true => exact ⟨'t', _, rfl, by decide, by decide⟩
    | false => exact ⟨'f', _, rfl, by decide, by decide⟩
  | jstr s => exact ⟨'"', _, rfl, by decide, by decide⟩
  | jarr es => exact ⟨'[', _, rfl, by decide, by decide⟩
  | jobj fs => exact ⟨'{', _, rfl, by decide, by decide⟩
  | jnum n =>
    by_cases hn : n < 0
    · refine ⟨'-', natDigitChars n.natAbs, ?_, by decide, by decide⟩
      show intCharsOf n = _
      unfold intCharsOf
      rw [if_pos hn]
      rfl
    · obtain ⟨d, t, hd, hdd⟩ := natDigitChars_head n.natAbs
      refine ⟨d, t, ?_, digit_not_ws hdd, digit_ne hdd ']' (by decide)⟩
      show intCharsOf n = _
      unfold intCharsOf
      rw [if_neg hn, List.nil_append, hd]

theorem ser_length_pos (v : JVal) : 1 ≤ (ser v).length := by
  obtain ⟨c, t, h, _, _⟩ := ser_head v
  rw [h]
  simp

mutual

theorem rt_parse : ∀ (v : JVal) (fuel : Nat) (rest : List Char),
    plainVal v = true → (ser v).length < fuel → numSafe rest = true →
    jparse fuel (ser v ++ rest) = some (v, rest)
  | .jnull, 0, _, _, hf, _ => absurd hf (Nat.not_lt_zero _)
  | .jnull, _ + 1, _, _, _, _ => rfl
  | .jbool true, 0, _, _, hf, _ => absurd hf (Nat.not_lt_zero _)
  | .jbool true, _ + 1, _, _, _, _ => rfl
  | .jbool false, 0, _, _, hf, _ => absurd hf (Nat.not_lt_zero _)
  | .jbool false, _ + 1, _, _, _, _ => rfl
  | .jnum n, 0, _, _, hf, _ => absurd hf (Nat.not_lt_zero _)
  | .jnum n, f + 1, rest, _, _, hr => by
    by_cases hn : n < 0
    · have hser : ser (.jnum n) = '-' :: natDigitChars n.natAbs := by
        show intCharsOf n = _
        unfold intCharsOf
        rw [if_pos hn]
        rfl
      have halign : ser (.jnum n) ++ rest = '-' :: (natDigitChars n.natAbs ++ rest) := by
        rw [hser]
        rfl
      rw [halign]
      rw [jparse_succ_cons f _ '-' _ (skipWsL_nonws (by decide) _)]
      rw [if_neg (by decide), if_neg (by decide), if_neg (by decide)]
      rw [if_pos (by decide : ((('-' : Char) = '-' : Bool) || isDigitCh '-') = true)]
      rw [show ('-' :: (natDigitChars n.natAbs ++ rest)) = intCharsOf n ++ rest from by
        rw [← List.cons_append, ← hser]; rfl]
      rw [grabNumber_ser n rest hr]
      rfl
    · obtain ⟨d, t, hd, hdd⟩ := natDigitChars_head n.natAbs
      have hser : ser (.jnum n) = d :: t := by
        show intCharsOf n = _
        unfold intCharsOf
        rw [if_neg hn, List.nil_append, hd]
      have halign : ser (.jnum n) ++ rest = d :: (t ++ rest) := by
        rw [hser]
        rfl
      rw [halign]
      rw [jparse_succ_cons f _ d _ (skipWsL_nonws (digit_not_ws hdd) _)]
      rw [if_neg (digit_ne hdd '[' (by decide)), if_neg (digit_ne hdd '{' (by decide)),
          if_neg (digit_ne hdd '"' (by decide))]
      rw [if_pos (by rw [hdd]; simp : ((d = '-' : Bool) || isDigitCh d) = true)]
      rw [show (d :: (t ++ rest)) = intCharsOf n ++ rest from by
        rw [← List.cons_append, ← hser]; rfl]
      rw [grabNumber_ser n rest hr]
      rfl
  | .jstr s, 0, _, _, hf, _ => absurd hf (Nat.not_lt_zero _)
  | .jstr s, f + 1, rest, hp, _, _ => by
    have halign : ser (.jstr s) ++ rest = '"' :: (s ++ '"' :: rest) := by
      show ('"' :: (s ++ ['"'])) ++ rest = _
      simp
    rw [halign]
    rw [jparse_succ_cons f _ '"' _ (skipWsL_nonws (by decide) _)]
    rw [if_neg (by decide), if_neg (by decide), if_pos rfl]
    rw [grabString_plain s hp rest]
    rfl
  | .jarr [], 0, _, _, hf, _ => absurd hf (Nat.not_lt_zero _)
  | .jarr [], _ + 1, _, _, _, _ => rfl
  | .jarr (v :: vs), 0, _, _, hf, _ => absurd hf (Nat.not_lt_zero _)
  | .jarr (v :: vs), f + 1, rest, hp, hf, _ => by
    have hpv : plainItems (v :: vs) = true := hp
    obtain ⟨c, t, hct, hcw, hcne⟩ := ser_head v
    have hser : ser (.jarr (v :: vs)) = '[' :: (serItems (v :: vs) ++ [']']) := rfl
    have hlen : (serItems (v :: vs)).length + 1 < f := by
      rw [hser] at hf
      simp at hf
      omega
    have harr : ser (.jarr (v :: vs)) ++ rest
        = '[' :: (serItems (v :: vs) ++ (']' :: rest)) := by
      rw [hser]
      simp
    rw [harr]
    rw [jparse_succ_cons f _ '[' _ (skipWsL_nonws (by decide) _)]
    rw [if_pos rfl]
    have hhead : serItems (v :: vs) ++ (']' :: rest)
        = c :: (t ++ (serItemsTail vs ++ (']' :: rest))) := by
      show (ser v ++ serItemsTail vs) ++ (']' :: rest) = _
      rw [hct]
      simp
    rw [hhead, skipWsL_nonws hcw]
    split
    next heq => exact absurd heq (by simp)
    next c2 r2 heq =>
      injection heq with hc2 hr2
      subst hc2
      subst hr2
      rw [if_neg hcne]
      rw [show c :: (t ++ (serItemsTail vs ++ (']' :: rest)))
            = serItems (v :: vs) ++ (']' :: rest) from by rw [hhead]]
      rw [rt_items v vs f rest hpv hlen]
      rfl
  | .jobj [], 0, _, _, hf, _ => absurd hf (Nat.not_lt_zero _)
  | .jobj [], _ + 1, _, _, _, _ => rfl
  | .jobj ((k, v) :: fs), 0, _, _, hf, _ => absurd hf (Nat.not_lt_zero _)
  | .jobj ((k, v) :: fs), f + 1, rest, hp, hf, _ => by
    have hpf : plainFields ((k, v) :: fs) = true := hp
    have hser : ser (.jobj ((k, v) :: fs)) = '{' :: (serFields ((k, v) :: fs) ++ ['}']) := rfl
    have hlen : (serFields ((k, v) :: fs)).length + 1 < f := by
      rw [hser] at hf
      simp at hf
      omega
    have hobj : ser (.jobj ((k, v) :: fs)) ++ rest
        = '{' :: (serFields ((k, v) :: fs) ++ ('}' :: rest)) := by
      rw [hser]
      simp
    rw [hobj]
    rw [jparse_succ_cons f _ '{' _ (skipWsL_nonws (by decide) _)]
    rw [if_neg (by decide), if_pos rfl]
    have hhead : serFields ((k, v) :: fs) ++ ('}' :: rest)
        = '"' :: ((k ++ ['"', ':']) ++ (ser v ++ serFieldsTail fs) ++ ('}' :: rest)) := by
      show ('"' :: (k ++ ['"', ':']) ++ (ser v ++ serFieldsTail fs)) ++ ('}' :: rest) = _
      simp
    rw [hhead, skipWsL_nonws (by decide)]
    split
    next heq => exact absurd heq (by simp)
    next c2 r2 heq =>
      injection heq with hc2 hr2
      subst hc2
      subst hr2
      rw [if_neg (by decide)]
      rw [show ('"' : Char) :: ((k ++ ['"', ':']) ++ (ser v ++ serFieldsTail fs) ++ ('}' :: rest))
            = serFields ((k, v) :: fs) ++ ('}' :: rest) from by rw [hhead]]
      rw [rt_fields k v fs f rest hpf hlen]
      rfl
termination_by v _ _ _ _ _ => sizeOf v

theorem rt_items : ∀ (v : JVal) (vs : List JVal) (fuel : Nat) (rest : List Char),
    plainItems (v :: vs) = true → (serItems (v :: vs)).length + 1 < fuel →
    jparseItems fuel (serItems (v :: vs) ++ (']' :: rest)) = some (v :: vs, rest)
  | v, vs, 0, _, _, hf => absurd hf (Nat.not_lt_zero _)
  | v, [], f + 1, rest, hp, hf => by
    have hpv : plainVal v = true := by
      have : plainItems (v :: []) = (plainVal v && plainItems []) := rfl
      rw [this, Bool.and_eq_true] at hp
      exact hp.1
    have hlen : (serItems (v :: [])).length = (ser v).length := by
      show (ser v ++ serItemsTail []).length = _
      simp [serItemsTail]
    rw [jparseItems_succ]
    have harr : serItems (v :: []) ++ (']' :: rest) = ser v ++ (']' :: rest) := by
      show (ser v ++ serItemsTail []) ++ (']' :: rest) = _
      simp [serItemsTail]
    rw [harr]
    rw [rt_parse v f (']' :: rest) hpv (by omega) rfl]
    rfl
  | v, w :: ws, f + 1, rest, hp, hf => by
    have hsplit : plainItems (v :: w :: ws) = (plainVal v && plainItems (w :: ws)) := rfl
    rw [hsplit, Bool.and_eq_true] at hp
    have hlen : (serItems (v :: w :: ws)).length
        = (ser v).length + 1 + (serItems (w :: ws)).length := by
      show (ser v ++ serItemsTail (w :: ws)).length = _
      rw [serItemsTail_cons]
      simp
      omega
    have hv1 := ser_length_pos v
    rw [jparseItems_succ]
    have harr : serItems (v :: w :: ws) ++ (']' :: rest)
        = ser v ++ (',' :: (serItems (w :: ws) ++ (']' :: rest))) := by
      show (ser v ++ serItemsTail (w :: ws)) ++ (']' :: rest) = _
      rw [serItemsTail_cons]
      simp
    rw [harr]
    rw [rt_parse v f (',' :: (serItems (w :: ws) ++ (']' :: rest))) hp.1 (by omega) rfl]
    show (jparseItems f (serItems (w :: ws) ++ (']' :: rest))).map
        (fun p => (v :: p.1, p.2)) = some (v :: w :: ws, rest)
    rw [rt_items w ws f rest hp.2 (by omega)]
    rfl
termination_by v vs _ _ _ _ => 1 + sizeOf v + sizeOf vs

theorem rt_fields : ∀ (k : List Char) (v : JVal) (fs : List (List Char × JVal))
    (fuel : Nat) (rest : List Char),
    plainFields ((k, v) :: fs) = true → (serFields ((k, v) :: fs)).length + 1 < fuel →
    jparseFields fuel (serFields ((k, v) :: fs) ++ ('}' :: rest)) = some ((k, v) :: fs, rest)
  | k, v, fs, 0, _, _, hf => absurd hf (Nat.not_lt_zero _)
  | k, v, [], f + 1, rest, hp, hf => by
    have hsplit : plainFields ((k, v) :: []) = (k.all plainChar && plainVal v && plainFields []) := rfl
    rw [hsplit, Bool.and_eq_true, Bool.and_eq_true] at hp
    have hserf : serFields ((k, v) :: []) = '"' :: (k ++ ['"', ':']) ++ (ser v ++ serFieldsTail []) := rfl
    have hlen : (serFields ((k, v) :: [])).length = 1 + k.length + 2 + (ser v).length := by
      rw [hserf]
      simp [serFieldsTail]
      omega
    have halign : serFields ((k, v) :: []) ++ ('}' :: rest)
        = '"' :: (k ++ ('"' :: (':' :: (ser v ++ ('}' :: rest))))) := by
      rw [hserf]
      simp [serFieldsTail]
    rw [halign]
    rw [jparseFields_succ_cons f _ '"' _ (skipWsL_nonws (by decide) _)]
    rw [if_pos rfl]
    rw [grabString_plain k hp.1.1 (':' :: (ser v ++ ('}' :: rest)))]
    show (jparse f (ser v ++ ('}' :: rest))).bind (fun vr =>
        match skipWsL vr.2 with
        | [] => none
        | c3 :: r4 =>
          if c3 = ',' then (jparseFields f r4).map (fun p => ((k, vr.1) :: p.1, p.2))
          else if c3 = '}' then some ([(k, vr.1)], r4)
          else none) = some ([(k, v)], rest)
    rw [rt_parse v f ('}' :: rest) hp.1.2 (by omega) rfl]
    rfl
  | k, v, (k2, v2) :: fs, f + 1, rest, hp, hf => by
    have hsplit : plainFields ((k, v) :: (k2, v2) :: fs)
        = (k.all plainChar && plainVal v && plainFields ((k2, v2) :: fs)) := rfl
    rw [hsplit, Bool.and_eq_true, Bool.and_eq_true] at hp
    have hserf : serFields ((k, v) :: (k2, v2) :: fs)
        = '"' :: (k ++ ['"', ':']) ++ (ser v ++ serFieldsTail ((k2, v2) :: fs)) := rfl
    have hserft : serFieldsTail ((k2, v2) :: fs) = ',' :: serFields ((k2, v2) :: fs) := rfl
    have hlen : (serFields ((k, v) :: (k2, v2) :: fs)).length
        = 1 + k.length + 2 + (ser v).length + 1 + (serFields ((k2, v2) :: fs)).length := by
      rw [hserf, hserft]
      simp
      omega
    have hv1 := ser_length_pos v
    have halign : serFields ((k, v) :: (k2, v2) :: fs) ++ ('}' :: rest)
        = '"' :: (k ++ ('"' :: (':' :: (ser v
            ++ (',' :: (serFields ((k2, v2) :: fs) ++ ('}' :: rest))))))) := by
      rw [hserf, hserft]
      simp
    rw [halign]
    rw [jparseFields_succ_cons f _ '"' _ (skipWsL_nonws (by decide) _)]
    rw [if_pos rfl]
    rw [grabString_plain k hp.1.1
      (':' :: (ser v ++ (',' :: (serFields ((k2, v2) :: fs) ++ ('}' :: rest)))))]
    show (jparse f (ser v ++ (',' :: (serFields ((k2, v2) :: fs) ++ ('}' :: rest))))).bind
        (fun vr =>
          match skipWsL vr.2 with
          | [] => none
          | c3 :: r4 =>
            if c3 = ',' then (jparseFields f r4).map (fun p => ((k, vr.1) :: p.1, p.2))
            else if c3 = '}' then some ([(k, vr.1)], r4)
            else none) = some ((k, v) :: (k2, v2) :: fs, rest)
    rw [rt_parse v f (',' :: (serFields ((k2, v2) :: fs) ++ ('}' :: rest))) hp.1.2
      (by omega) rfl]
    show (jparseFields f (serFields ((k2, v2) :: fs) ++ ('}' :: rest))).map
        (fun p => ((k, v) :: p.1, p.2)) = some ((k, v) :: (k2, v2) :: fs, rest)
    rw [rt_fields k2 v2 fs f rest hp.2 (by omega)]
    rfl
termination_by k v fs _ _ _ _ => 1 + sizeOf v + sizeOf fs

end

/-- `json.loads` inverts serialization on plain values. -/

theorem jloads_ser (v : JVal) (hp : plainVal v = true) : jloads (ser v) = some v := by
  unfold jloads
  have h := rt_parse v ((ser v).length + 1) [] hp (by omega) (by decide)
  rw [List.append_nil] at h
  rw [h]
  rfl

theorem optLenAdd (x : Option Nat) (a b : Nat) :
    (x.map (· + a)).map (· + b) = x.map (· + (a + b)) := by
  cases x with
  | none => rfl
  | some n => simp [Nat.add_assoc]

theorem scanBal_cons_stop (o c : Char) (_hoc : o ≠ c) (xs : List Char) :
    scanBal o c 1 (c :: xs) = some 1 := by
  rw [scanBal]
  rw [if_pos ⟨rfl, by omega⟩]

theorem scanBal_cons_open (o c : Char) (hoc : o ≠ c) (d : Int) (xs : List Char) :
    scanBal o c d (o :: xs) = (scanBal o c (d + 1) xs).map (· + 1) := by
  rw [scanBal]
  rw [if_neg (fun hcon => hoc hcon.1)]
  rw [if_pos rfl]

theorem scanBal_cons_close (o c : Char) (hoc : o ≠ c) (d : Int) (hd : ¬(d - 1 = 0))
    (xs : List Char) :
    scanBal o c d (c :: xs) = (scanBal o c (d - 1) xs).map (· + 1) := by
  rw [scanBal]
  rw [if_neg (fun hcon => hd hcon.2)]
  rw [if_neg (fun hco => hoc hco.symm), if_pos rfl]

theorem scanBal_cons_other (o c : Char) (x : Char) (hxo : x ≠ o) (hxc : x ≠ c)
    (d : Int) (xs : List Char) :
    scanBal o c d (x :: xs) = (scanBal o c d xs).map (· + 1) := by
  rw [scanBal]
  rw [if_neg (fun hcon => hxc hcon.1)]
  rw [if_neg hxo, if_neg hxc]

theorem scanBal_inert (o c : Char) :
    ∀ (xs : List Char), (∀ x ∈ xs, x ≠ o ∧ x ≠ c) → ∀ (d : Int) (rest : List Char),
      scanBal o c d (xs ++ rest) = (scanBal o c d rest).map (· + xs.length) := by
  intro xs
  induction xs with
  | nil =>
    intro _ d rest
    rw [List.nil_append]
    cases scanBal o c d rest <;> rfl
  | cons x t ih =>
    intro hx d rest
    rw [List.cons_append,
        scanBal_cons_other o c x (hx x (List.mem_cons_self _ _)).1
          (hx x (List.mem_cons_self _ _)).2,
        ih (fun y hy => hx y (List.mem_cons_of_mem _ hy)) d rest, optLenAdd]
    cases scanBal o c d rest with
    | none => rfl
    | some n => simp [List.length_cons]

theorem intCharsOf_chars (n : Int) : ∀ x ∈ intCharsOf n, x = '-' ∨ isDigitCh x = true := by
  intro x hx
  unfold intCharsOf at hx
  by_cases hn : n < 0
  · rw [if_pos hn] at hx
    rcases List.mem_append.mp hx with h1 | h2
    · left
      rw [List.mem_singleton] at h1
      exact h1
    · right
      exact natDigitChars_all_digits _ x h2
  · rw [if_neg hn, List.nil_append] at hx
    right
    exact natDigitChars_all_digits _ x hx

theorem pair_chars (o c : Char) (hoc : pairOK o c) :
    o ≠ c ∧ (∀ x, x = '-' ∨ isDigitCh x = true → x ≠ o ∧ x ≠ c) := by
  rcases hoc with ⟨rfl, rfl⟩ | ⟨rfl, rfl⟩
  · refine ⟨by decide, ?_⟩
    intro x hx
    rcases hx with rfl | hd
    · exact ⟨by decide, by decide⟩
    · exact ⟨digit_ne hd '[' (by decide), digit_ne hd ']' (by decide)⟩
  · refine ⟨by decide, ?_⟩
    intro x hx
    rcases hx with rfl | hd
    · exact ⟨by decide, by decide⟩
    · exact ⟨digit_ne hd '{' (by decide), digit_ne hd '}' (by decide)⟩

theorem plain_ne_pair (o c : Char) (hoc : pairOK o c) {x : Char} (hx : plainChar x = true) :
    x ≠ o ∧ x ≠ c := by
  obtain ⟨_, _, h3, h4, h5, h6⟩ := plainChar_props hx
  rcases hoc with ⟨rfl, rfl⟩ | ⟨rfl, rfl⟩
  · exact ⟨h3, h4⟩
  · exact ⟨h5, h6⟩

theorem nonbracket_ne_pair (o c : Char) (hoc : pairOK o c) (x : Char)
    (hx : x ≠ '[' ∧ x ≠ ']' ∧ x ≠ '{' ∧ x ≠ '}') : x ≠ o ∧ x ≠ c := by
  rcases hoc with ⟨rfl, rfl⟩ | ⟨rfl, rfl⟩
  · exact ⟨hx.1, hx.2.1⟩
  · exact ⟨hx.2.2.1, hx.2.2.2⟩

mutual

theorem scan_skip_val : ∀ (v : JVal), plainVal v = true → ∀ (o c : Char), pairOK o c →
    ∀ (d : Int), 1 ≤ d → ∀ (rest : List Char),
    scanBal o c d (ser v ++ rest) = (scanBal o c d rest).map (· + (ser v).length)
  | .jnull, _, o, c, hoc, d, _, rest => by
    apply scanBal_inert
    rcases hoc with ⟨rfl, rfl⟩ | ⟨rfl, rfl⟩ <;> decide
  | .jbool true, _, o, c, hoc, d, _, rest => by
    apply scanBal_inert
    rcases hoc with ⟨rfl, rfl⟩ | ⟨rfl, rfl⟩ <;> decide
  | .jbool false, _, o, c, hoc, d, _, rest => by
    apply scanBal_inert
    rcases hoc with ⟨rfl, rfl⟩ | ⟨rfl, rfl⟩ <;> decide
  | .jnum n, _, o, c, hoc, d, _, rest => by
    apply scanBal_inert
    intro x hx
    exact (pair_chars o c hoc).2 x (intCharsOf_chars n x hx)
  | .jstr s, hp, o, c, hoc, d, _, rest => by
    apply scanBal_inert
    intro x hx
    have hx' : x = '"' ∨ x ∈ s := by
      rcases List.mem_cons.mp hx with rfl | hx1
      · exact Or.inl rfl
      · rcases List.mem_append.mp hx1 with h2 | h3
        · exact Or.inr h2
        · rw [List.mem_singleton] at h3
          exact Or.inl h3
    rcases hx' with rfl | hxs
    · exact nonbracket_ne_pair o c hoc '"' ⟨by decide, by decide, by decide, by decide⟩
    · exact plain_ne_pair o c hoc (List.all_eq_true.mp hp x hxs)
  | .jarr es, hp, o, c, hoc, d, hd, rest => by
    have halign : ser (.jarr es) ++ rest = '[' :: (serItems es ++ (']' :: rest)) := by
      show ('[' :: (serItems es ++ [']'])) ++ rest = _
      simp
    have hlen : (ser (.jarr es)).length = (serItems es).length + 2 := by
      rw [show ser (.jarr es) = '[' :: (serItems es ++ [']']) from rfl]
      simp
    rw [halign]
    rcases hoc with ⟨rfl, rfl⟩ | ⟨rfl, rfl⟩
    · rw [scanBal_cons_open '[' ']' (by decide) d _]
      rw [scan_skip_items es hp '[' ']' (Or.inl ⟨rfl, rfl⟩) (d + 1) (by omega) _]
      rw [scanBal_cons_close '[' ']' (by decide) (d + 1) (by omega) rest]
      rw [show d + 1 - 1 = d from by omega]
      rw [optLenAdd, optLenAdd]
      cases scanBal '[' ']' d rest with
      | none => rfl
      | some n =>
        simp only [Option.map_some', Option.some.injEq]
        omega
    · rw [scanBal_cons_other '{' '}' '[' (by decide) (by decide) d _]
      rw [scan_skip_items es hp '{' '}' (Or.inr ⟨rfl, rfl⟩) d hd _]
      rw [scanBal_cons_other '{' '}' ']' (by decide) (by decide) d rest]
      rw [optLenAdd, optLenAdd]
      cases scanBal '{' '}' d rest with
      | none => rfl
      | some n =>
        simp only [Option.map_some', Option.some.injEq]
        omega
  | .jobj fs, hp, o, c, hoc, d, hd, rest => by
    have halign : ser (.jobj fs) ++ rest = '{' :: (serFields fs ++ ('}' :: rest)) := by
      show ('{' :: (serFields fs ++ ['}'])) ++ rest = _
      simp
    have hlen : (ser (.jobj fs)).length = (serFields fs).length + 2 := by
      rw [show ser (.jobj fs) = '{' :: (serFields fs ++ ['}']) from rfl]
      simp
    rw [halign]
    rcases hoc with ⟨rfl, rfl⟩ | ⟨rfl, rfl⟩
    · rw [scanBal_cons_other '[' ']' '{' (by decide) (by decide) d _]
      rw [scan_skip_fields fs hp '[' ']' (Or.inl ⟨rfl, rfl⟩) d hd _]
      rw [scanBal_cons_other '[' ']' '}' (by decide) (by decide) d rest]
      rw [optLenAdd, optLenAdd]
      cases scanBal '[' ']' d rest with
      | none => rfl
      | some n =>
        simp only [Option.map_some', Option.some.injEq]
        omega
    · rw [scanBal_cons_open '{' '}' (by decide) d _]
      rw [scan_skip_fields fs hp '{' '}' (Or.inr ⟨rfl, rfl⟩) (d + 1) (by omega) _]
      rw [scanBal_cons_close '{' '}' (by decide) (d + 1) (by omega) rest]
      rw [show d + 1 - 1 = d from by omega]
      rw [optLenAdd, optLenAdd]
      cases scanBal '{' '}' d rest with
      | none => rfl
      | some n =>
        simp only [Option.map_some', Option.some.injEq]
        omega
termination_by v _ _ _ _ _ _ _ => sizeOf v

theorem scan_skip_items : ∀ (es : List JVal), plainItems es = true → ∀ (o c : Char),
    pairOK o c → ∀ (d : Int), 1 ≤ d → ∀ (rest : List Char),
    scanBal o c d (serItems es ++ rest) = (scanBal o c d rest).map (· + (serItems es).length)
  | [], _, o, c, _, d, _, rest => by
    rw [show serItems [] = ([] : List Char) from rfl, List.nil_append]
    cases scanBal o c d rest <;> rfl
  | v :: vs, hp, o, c, hoc, d, hd, rest => by
    have hp' : plainVal v = true ∧ plainItems vs = true := by
      have heq : plainItems (v :: vs) = (plainVal v && plainItems vs) := rfl
      rw [heq, Bool.and_eq_true] at hp
      exact hp
    have halign : serItems (v :: vs) ++ rest = ser v ++ (serItemsTail vs ++ rest) := by
      show (ser v ++ serItemsTail vs) ++ rest = _
      simp
    rw [halign, scan_skip_val v hp'.1 o c hoc d hd _]
    cases vs with
    | nil =>
      rw [show serItemsTail [] = ([] : List Char) from rfl, List.nil_append]
      cases scanBal o c d rest with
      | none => rfl
      | some n =>
        simp only [Option.map_some', Option.some.injEq]
        have : serItems (v :: []) = ser v ++ [] := rfl
        rw [this]
        simp
    | cons w ws =>
      rw [serItemsTail_cons, List.cons_append]
      have hcomma := nonbracket_ne_pair o c hoc ','
        ⟨by decide, by decide, by decide, by decide⟩
      rw [scanBal_cons_other o c ',' hcomma.1 hcomma.2 d _]
      rw [scan_skip_items (w :: ws) hp'.2 o c hoc d hd rest]
      rw [optLenAdd, optLenAdd]
      cases scanBal o c d rest with
      | none => rfl
      | some n =>
        simp only [Option.map_some', Option.some.injEq]
        have heq : serItems (v :: w :: ws) = ser v ++ (',' :: serItems (w :: ws)) := by
          show ser v ++ serItemsTail (w :: ws) = _
          rw [serItemsTail_cons]
        rw [heq]
        simp
        omega
termination_by es _ _ _ _ _ _ _ => sizeOf es

theorem scan_skip_fields : ∀ (fs : List (List Char × JVal)), plainFields fs = true →
    ∀ (o c : Char), pairOK o c → ∀ (d : Int), 1 ≤ d → ∀ (rest : List Char),
    scanBal o c d (serFields fs ++ rest) = (scanBal o c d rest).map (· + (serFields fs).length)
  | [], _, o, c, _, d, _, rest => by
    rw [show serFields [] = ([] : List Char) from rfl, List.nil_append]
    cases scanBal o c d rest <;> rfl
  | (k, v) :: fs, hp, o, c, hoc, d, hd, rest => by
    have hp' : k.all plainChar = true ∧ plainVal v = true ∧ plainFields fs = true := by
      have heq : plainFields ((k, v) :: fs)
          = (k.all plainChar && plainVal v && plainFields fs) := rfl
      rw [heq, Bool.and_eq_true, Bool.and_eq_true] at hp
      exact ⟨hp.1.1, hp.1.2, hp.2⟩
    have hkey : ∀ x ∈ '"' :: (k ++ ['"', ':']), x ≠ o ∧ x ≠ c := by
      intro x hx
      rcases List.mem_cons.mp hx with rfl | hx1
      · exact nonbracket_ne_pair o c hoc '"' ⟨by decide, by decide, by decide, by decide⟩
      · rcases List.mem_append.mp hx1 with h2 | h3
        · exact plain_ne_pair o c hoc (List.all_eq_true.mp hp'.1 x h2)
        · rcases List.mem_cons.mp h3 with rfl | h4
          · exact nonbracket_ne_pair o c hoc '"' ⟨by decide, by decide, by decide, by decide⟩
          · rw [List.mem_singleton] at h4
            subst h4
            exact nonbracket_ne_pair o c hoc ':' ⟨by decide, by decide, by decide, by decide⟩
    have halign : serFields ((k, v) :: fs) ++ rest
        = ('"' :: (k ++ ['"', ':'])) ++ (ser v ++ (serFieldsTail fs ++ rest)) := by
      show ('"' :: (k ++ ['"', ':']) ++ (ser v ++ serFieldsTail fs)) ++ rest = _
      simp
    rw [halign]
    rw [scanBal_inert o c ('"' :: (k ++ ['"', ':'])) hkey d _]
    rw [scan_skip_val v hp'.2.1 o c hoc d hd _]
    cases fs with
    | nil =>
      rw [show serFieldsTail [] = ([] : List Char) from rfl, List.nil_append]
      rw [optLenAdd]
      cases scanBal o c d rest with
      | none => rfl
      | some n =>
        simp only [Option.map_some', Option.some.injEq]
        have heq : serFields ((k, v) :: []) = '"' :: (k ++ ['"', ':']) ++ (ser v ++ []) := rfl
        rw [heq]
        simp
        omega
    | cons kv2 fs2 =>
      have hserft : serFieldsTail (kv2 :: fs2) = ',' :: serFields (kv2 :: fs2) := by
        cases kv2
        rfl
      rw [hserft, List.cons_append]
      have hcomma := nonbracket_ne_pair o c hoc ','
        ⟨by decide, by decide, by decide, by decide⟩
      rw [scanBal_cons_other o c ',' hcomma.1 hcomma.2 d _]
      rw [scan_skip_fields (kv2 :: fs2) hp'.2.2 o c hoc d hd rest]
      rw [optLenAdd, optLenAdd, optLenAdd]
      cases scanBal o c d rest with
      | none => rfl
      | some n =>
        simp only [Option.map_some', Option.some.injEq]
        have heq : serFields ((k, v) :: kv2 :: fs2)
            = '"' :: (k ++ ['"', ':']) ++ (ser v ++ (',' :: serFields (kv2 :: fs2))) := by
          show '"' :: (k ++ ['"', ':']) ++ (ser v ++ serFieldsTail (kv2 :: fs2)) = _
          rw [hserft]
        rw [heq]
        simp
        omega
termination_by fs _ _ _ _ _ _ _ => sizeOf fs

end

/-- The code's bracket scan started on a serialized plain array stops exactly
at its end. -/

theorem scanBal_ser_arr (es : List JVal) (hp : plainItems es = true) (rest : List Char) :
    scanBal '[' ']' 0 (ser (.jarr es) ++ rest) = some (ser (.jarr es)).length := by
  have halign : ser (.jarr es) ++ rest = '[' :: (serItems es ++ (']' :: rest)) := by
    show ('[' :: (serItems es ++ [']'])) ++ rest = _
    simp
  rw [halign]
  rw [scanBal_cons_open '[' ']' (by decide) 0 _]
  rw [scan_skip_items es hp '[' ']' (Or.inl ⟨rfl, rfl⟩) (0 + 1) (by omega) _]
  rw [show (0 : Int) + 1 = 1 from by omega]
  rw [scanBal_cons_stop '[' ']' (by decide) rest]
  simp only [Option.map_some', Option.some.injEq]
  rw [show ser (.jarr es) = '[' :: (serItems es ++ [']']) from rfl]
  simp
  omega

/-- The same for a serialized plain object and the brace pair. -/

theorem scanBal_ser_obj (fs : List (List Char × JVal)) (hp : plainFields fs = true)
    (rest : List Char) :
    scanBal '{' '}' 0 (ser (.jobj fs) ++ rest) = some (ser (.jobj fs)).length := by
  have halign : ser (.jobj fs) ++ rest = '{' :: (serFields fs ++ ('}' :: rest)) := by
    show ('{' :: (serFields fs ++ ['}'])) ++ rest = _
    simp
  rw [halign]
  rw [scanBal_cons_open '{' '}' (by decide) 0 _]
  rw [scan_skip_fields fs hp '{' '}' (Or.inr ⟨rfl, rfl⟩) (0 + 1) (by omega) _]
  rw [show (0 : Int) + 1 = 1 from by omega]
  rw [scanBal_cons_stop '{' '}' (by decide) rest]
  simp only [Option.map_some', Option.some.injEq]
  rw [show ser (.jobj fs) = '{' :: (serFields fs ++ ['}']) from rfl]
  simp
  omega

theorem jStartCh_false_elim {c : Char} (h : jStartCh c = false) :
    c ≠ '[' ∧ c ≠ '{' ∧ c ≠ '"' ∧ c ≠ '-' ∧ isDigitCh c = false
      ∧ c ≠ 'n' ∧ c ≠ 't' ∧ c ≠ 'f' := by
  simp only [jStartCh, Bool.or_eq_false_iff, beq_eq_false_iff_ne, ne_eq] at h
  exact ⟨h.1.1.1.1.1.1.1, h.1.1.1.1.1.1.2, h.1.1.1.1.1.2, h.1.1.1.1.2,
    h.1.1.1.2, h.1.1.2, h.1.2, h.2⟩

theorem jparse_zero (cs : List Char) : jparse 0 cs = none := by
  rw [jparse.eq_def]

theorem jparse_none_of_inert {c0 : Char} (hw : isWsCh c0 = false)
    (hs : jStartCh c0 = false) (fuel : Nat) (rest : List Char) :
    jparse fuel (c0 :: rest) = none := by
  obtain ⟨h1, h2, h3, h4, h5, h6, h7, h8⟩ := jStartCh_false_elim hs
  cases fuel with
  | zero => exact jparse_zero _
  | succ f =>
    rw [jparse_succ_cons f (c0 :: rest) c0 rest (skipWsL_nonws hw rest)]
    simp [h1, h2, h3, h4, h5, h6, h7, h8]

theorem jloads_none_of_inert {c0 : Char} (hw : isWsCh c0 = false)
    (hs : jStartCh c0 = false) (rest : List Char) :
    jloads (c0 :: rest) = none := by
  unfold jloads
  rw [jparse_none_of_inert hw hs]
  rfl

theorem scanBal_none_of_no_close (o c : Char) :
    ∀ (xs : List Char), c ∉ xs → ∀ (d : Int), scanBal o c d xs = none
  | [], _, d => rfl
  | x :: xs, hmem, d => by
    have hx : ¬(x = c) := fun hxc => hmem (hxc ▸ List.mem_cons_self x xs)
    rw [scanBal]
    rw [if_neg (fun hand => hx hand.1)]
    rw [scanBal_none_of_no_close o c xs (fun hm => hmem (List.mem_cons_of_mem _ hm)) _]
    rfl

theorem findIdx_first_aux (p : Char → Bool) :
    ∀ (p1 : List Char), (∀ x ∈ p1, p x = false) → ∀ (c : Char), p c = true →
    ∀ (rest : List Char) (k : Nat),
    List.findIdx? p (p1 ++ c :: rest) k = some (k + p1.length)
  | [], _, c, hc, rest, k => by
    rw [List.nil_append, List.findIdx?_cons, if_pos hc]
    simp
  | a :: as, h1, c, hc, rest, k => by
    have ha : p a = false := h1 a (List.mem_cons_self _ _)
    rw [List.cons_append, List.findIdx?_cons, if_neg (by rw [ha]; exact Bool.false_ne_true)]
    rw [findIdx_first_aux p as (fun x hx => h1 x (List.mem_cons_of_mem _ hx)) c hc rest (k + 1)]
    simp
    omega

theorem findIdx_first (p : Char → Bool) (p1 : List Char) (h1 : ∀ x ∈ p1, p x = false)
    (c : Char) (hc : p c = true) (rest : List Char) :
    List.findIdx? p (p1 ++ c :: rest) = some p1.length := by
  have := findIdx_first_aux p p1 h1 c hc rest 0
  simpa using this

theorem infix_mem_contigSubs {xs ys : List Char} (h : xs <:+: ys) : xs ∈ contigSubs ys := by
  rcases h with ⟨s, t, rfl⟩
  unfold contigSubs
  rw [List.mem_flatMap]
  refine ⟨s.length, ?_, ?_⟩
  · rw [List.mem_range]
    simp only [List.length_append]
    omega
  · rw [List.mem_map]
    refine ⟨xs.length, ?_, ?_⟩
    · rw [List.mem_range]
      simp only [List.length_append]
      omega
    · rw [show s ++ xs ++ t = s ++ (xs ++ t) from by simp, List.drop_left, List.take_left]

theorem stripLeftL_suffix (cs : List Char) : stripLeftL cs <:+ cs :=
  List.dropWhile_suffix _

theorem stripRightL_toPrefix (cs : List Char) : stripRightL cs <+: cs := by
  rw [← List.reverse_suffix, stripRightL, List.reverse_reverse]
  exact List.dropWhile_suffix _

theorem pyStripL_infixOf (cs : List Char) : pyStripL cs <:+: cs :=
  (stripRightL_toPrefix (stripLeftL cs)).isInfix.trans (stripLeftL_suffix cs).isInfix

theorem pyCleanText_infixOf (cs : List Char) : pyCleanText cs <:+: cs := by
  have h2 : ∀ t : List Char, (if t.take 7 = fenceOpen then t.drop 7 else t) <:+: t := by
    intro t
    split
    · exact (List.drop_suffix 7 t).isInfix
    · exact List.infix_refl t
  have h3 : ∀ t : List Char,
      (if 3 ≤ t.length ∧ t.drop (t.length - 3) = fenceClose
       then t.take (t.length - 3) else t) <:+: t := by
    intro t
    split
    · exact (List.take_prefix _ t).isInfix
    · exact List.infix_refl t
  simp only [pyCleanText]
  exact ((pyStripL_infixOf _).trans (h3 _)).trans ((h2 _).trans (pyStripL_infixOf cs))

theorem slice_infixOf (cs : List Char) (i n : Nat) : (cs.drop i).take n <:+: cs :=
  (List.take_prefix n _).isInfix.trans (List.drop_suffix i cs).isInfix

theorem mem_ne_decide {b : Char} {l : List Char} (h : b ∉ l) {a : Char} (ha : a ∈ l) :
    decide (a = b) = false :=
  decide_eq_false (fun he => h (he ▸ ha))

theorem fallbackScan_arr (cleaned : List Char) (i : Nat)
    (hfi : cleaned.findIdx? (fun ch => ch = '[') = some i) :
    fallbackScan cleaned = extractAt cleaned i '[' ']' := by
  unfold fallbackScan
  rw [hfi]

theorem fallbackScan_obj (cleaned : List Char) (i : Nat)
    (hno : cleaned.findIdx? (fun ch => ch = '[') = none)
    (hfi : cleaned.findIdx? (fun ch => ch = '{') = some i) :
    fallbackScan cleaned = extractAt cleaned i '{' '}' := by
  unfold fallbackScan
  rw [hno, hfi]

set_option maxRecDepth 4000 in

/-- C7 counterexample: the text `a [ {"b":2}` contains exactly one
well-formed JSON container (the object `{"b":2}`, count certified over all
contiguous substrings), yet the extractor returns the empty object, because
the stray `[` in the prose wins the array-first search and its scan never
balances. -/

theorem c7_counterexample_stray_bracket_blocks_object :
    (contigSubs (String.data "a [ \x7b\"b\":2\x7d")).dedup.countP isExactContainer = 1
    ∧ jloads (String.data "\x7b\"b\":2\x7d") = some (.jobj [(['b'], .jnum 2)])
    ∧ parse_json_response (String.data "a [ \x7b\"b\":2\x7d") = .jobj [] :=
  ⟨by decide, rfl, rfl⟩

/-- C7 (amended): if the cleaned text is inert prose followed by one
canonically serialized plain JSON container and a tail, where the prose
starts with a character that can open no JSON value and contains no bracket
characters, and (for an object) no stray `[` appears anywhere, then the
extractor returns exactly that value (round-trip), the array case winning by
the array-first search. -/

theorem c7_amended_embedded_container_round_trip (text p1t p2 : List Char) (c0 : Char)
    (v : JVal)
    (hclean : pyCleanText text = c0 :: p1t ++ ser v ++ p2)
    (hv : plainVal v = true)
    (hc0w : isWsCh c0 = false) (hc0s : jStartCh c0 = false)
    (hp1a : '[' ∉ c0 :: p1t) (hp1o : '{' ∉ c0 :: p1t)
    (hcase : (∃ es, v = .jarr es) ∨ ((∃ fs, v = .jobj fs) ∧ '[' ∉ ser v ∧ '[' ∉ p2)) :
    parse_json_response text = v := by
  have hjl : jloads (c0 :: p1t ++ ser v ++ p2) = none :=
    jloads_none_of_inert hc0w hc0s _
  unfold parse_json_response
  rw [hclean, hjl, Option.getD_none]
  rcases hcase with ⟨es, rfl⟩ | ⟨⟨fs, rfl⟩, hsv, hp2⟩
  · have hser : ser (.jarr es) = '[' :: (serItems es ++ [']']) := rfl
    have hfi : (c0 :: p1t ++ ser (.jarr es) ++ p2).findIdx? (fun ch => ch = '[')
        = some (c0 :: p1t).length := by
      rw [show c0 :: p1t ++ ser (.jarr es) ++ p2
          = (c0 :: p1t) ++ '[' :: (serItems es ++ (']' :: p2)) from by rw [hser]; simp]
      exact findIdx_first _ _ (fun x hx => mem_ne_decide hp1a hx) _ (by decide) _
    rw [fallbackScan_arr _ _ hfi]
    unfold extractAt
    rw [show c0 :: p1t ++ ser (.jarr es) ++ p2
        = (c0 :: p1t) ++ (ser (.jarr es) ++ p2) from by simp]
    rw [List.drop_left, scanBal_ser_arr es hv p2, Option.some_bind, List.take_left,
      jloads_ser _ hv]
    rfl
  · have hser : ser (.jobj fs) = '{' :: (serFields fs ++ ['}']) := rfl
    have hno : (c0 :: p1t ++ ser (.jobj fs) ++ p2).findIdx? (fun ch => ch = '[') = none := by
      rw [List.findIdx?_eq_none_iff]
      intro x hx
      apply decide_eq_false
      intro hxe
      subst hxe
      rcases List.mem_cons.mp hx with h | h
      · exact (jStartCh_false_elim hc0s).1 h.symm
      · rcases List.mem_append.mp h with h12 | h3
        · rcases List.mem_append.mp h12 with h1 | h2
          · exact hp1a (List.mem_cons_of_mem _ h1)
          · exact hsv h2
        · exact hp2 h3
    have hfi : (c0 :: p1t ++ ser (.jobj fs) ++ p2).findIdx? (fun ch => ch = '{')
        = some (c0 :: p1t).length := by
      rw [show c0 :: p1t ++ ser (.jobj fs) ++ p2
          = (c0 :: p1t) ++ '{' :: (serFields fs ++ ('}' :: p2)) from by rw [hser]; simp]
      exact findIdx_first _ _ (fun x hx => mem_ne_decide hp1o hx) _ (by decide) _
    rw [fallbackScan_obj _ _ hno hfi]
    unfold extractAt
    rw [show c0 :: p1t ++ ser (.jobj fs) ++ p2
        = (c0 :: p1t) ++ (ser (.jobj fs) ++ p2) from by simp]
    rw [List.drop_left, scanBal_ser_obj fs hv p2, Option.some_bind, List.take_left,
      jloads_ser _ hv]
    rfl

/-- C7 witness: a fenced model response with prose around the array `[1,2]`
round-trips to exactly that array. -/

theorem c7_amended_witness :
    parse_json_response (String.data "```json\nsee [1,2] ok```")
      = .jarr [.jnum 1, .jnum 2] :=
  c7_amended_embedded_container_round_trip _ (String.data "ee ") (String.data " ok") 's'
    (.jarr [.jnum 1, .jnum 2]) rfl (by decide) (by decide) (by decide) (by decide)
    (by decide) (Or.inl ⟨_, rfl⟩)

/-- C8 counterexample: `42` contains no JSON object or array at all
(certified over all contiguous substrings), yet the extractor returns the
number 42 - the bare `json.loads` result - not the empty object the claim
requires for object/array-free input. -/

theorem c8_counterexample_scalar_passthrough :
    (contigSubs (String.data "42")).countP parsesContainer = 0
    ∧ parse_json_response (String.data "42") = .jnum 42 :=
  ⟨by decide, rfl⟩

/-- C8 (amended): when no contiguous substring of the input parses as JSON
at all, the extractor returns the empty object; and (totality, as embedded)
it never raises - every internal parse or scan failure falls through to a
defaulted value. -/

theorem c8_amended_nothing_parseable (text : List Char)
    (h : (contigSubs text).all (fun t => (jloads t).isNone) = true) :
    parse_json_response text = .jobj [] := by
  have hnone : ∀ t : List Char, t <:+: text → jloads t = none := by
    intro t ht
    exact Option.isNone_iff_eq_none.mp (List.all_eq_true.mp h t (infix_mem_contigSubs ht))
  unfold parse_json_response
  rw [hnone _ (pyCleanText_infixOf text), Option.getD_none]
  cases hfi : (pyCleanText text).findIdx? (fun ch => ch = '[') with
  | some i =>
    rw [fallbackScan_arr _ _ hfi]
    unfold extractAt
    cases hsb : scanBal '[' ']' 0 ((pyCleanText text).drop i) with
    | none => rfl
    | some n =>
      rw [Option.some_bind, hnone _ ((slice_infixOf _ i n).trans (pyCleanText_infixOf text))]
      rfl
  | none =>
    cases hfb : (pyCleanText text).findIdx? (fun ch => ch = '{') with
    | some i =>
      rw [fallbackScan_obj _ _ hfi hfb]
      unfold extractAt
      cases hsb : scanBal '{' '}' 0 ((pyCleanText text).drop i) with
      | none => rfl
      | some n =>
        rw [Option.some_bind, hnone _ ((slice_infixOf _ i n).trans (pyCleanText_infixOf text))]
        rfl
    | none =>
      unfold fallbackScan
      rw [hfi, hfb]

/-- C8 witness: plain prose with nothing parseable yields the empty
object. -/

theorem c8_amended_witness : parse_json_response (String.data "hello") = .jobj [] :=
  c8_amended_nothing_parseable _ (by decide)

/-- C10: once any `[` is present in the cleaned text the `{` search is never
consulted: if the direct parse fails, the first `[` is at `i` and no `]`
exists to balance it, then even though a complete serialized JSON object
occurs in the text, the extractor returns the empty object instead of that
object. -/

theorem c10_bracket_presence_suppresses_brace_search (text : List Char) (i : Nat)
    (hdirect : jloads (pyCleanText text) = none)
    (hfi : (pyCleanText text).findIdx? (fun ch => ch = '[') = some i)
    (hnoclose : ']' ∉ pyCleanText text)
    (_hobj : ∃ fs, plainFields fs = true ∧ ser (.jobj fs) <:+: pyCleanText text) :
    parse_json_response text = .jobj [] := by
  have hscan : scanBal '[' ']' 0 ((pyCleanText text).drop i) = none :=
    scanBal_none_of_no_close '[' ']' _
      (fun hm => hnoclose ((List.drop_suffix i _).subset hm)) 0
  unfold parse_json_response
  rw [hdirect, Option.getD_none, fallbackScan_arr _ _ hfi]
  unfold extractAt
  rw [hscan]
  rfl

/-- C10 witness: `go [ up {"k":7} end` holds the complete object `{"k":7}`,
but the unbalanced `[` before it forces the empty object. -/

theorem c10_bracket_presence_witness :
    parse_json_response (String.data "go [ up \x7b\"k\":7\x7d end") = .jobj [] :=
  c10_bracket_presence_suppresses_brace_search _ 3 rfl (by decide) (by decide)
    ⟨[(['k'], .jnum 7)], by decide,
      String.data "go [ up ", String.data " end", by decide⟩

end LibMgr
